import Mathlib

/-!
# Verification of the flet-asp reactive-state runtime

A shallow embedding of the reactive-state core of this repository:

* `fasp/atom.py` (`Atom.set`, `Atom._notify_listeners`) and `fasp/utils.py`
  (`deep_equal`) in namespace `Fasp`;
* `flet_asp/selector.py` (`Selector`), `flet_asp/state.py` (`StateManager`) and
  `flet_asp/utils.py` (`deep_equal`) in namespace `FletAsp`;
* an object-graph (heap) model of `Selector._set_value`'s deep-copy behaviour
  in namespace `Heap`.

`flet_asp/atom.py` is imported by `flet_asp/selector.py` and
`flet_asp/state.py` but is not part of the source tree; the few base-class
members that the present modules call (`_listeners`, `listen`,
`_notify_listeners`, `_set_value` on plain atoms, the `key` attribute) are
modelled from the specification and are marked as such in their doc comments.

Values are restricted to the JSON scalars (`None`, `bool`, `int`, `str`).
On this universe `ujson.dumps(x, sort_keys=True)` is a canonical injective
serialisation, so `deep_equal` is embedded exactly as serialise-and-compare;
the structured-container aspects of the runtime (deep copies, aliasing) are
treated in the dedicated `Heap` namespace.

Python exceptions are modelled with an explicit error channel: an operation
returns its (partially updated) state together with `Option Err`, mirroring
the fact that a raised exception leaves already-performed mutations in place.
Synchronous listener notification is executed by a fuelled work-list
interpreter `run` that performs the same depth-first call sequence as the
inline Python calls; fuel only bounds the nesting of reactive-callback
invocations, never the length of a listener list.
-/

namespace FletAsp

/-- The universe of state values used by the pure part of the model:
the JSON scalar values. -/
inductive Value where
  | none
  | bool (b : Bool)
  | int (n : Int)
  | str (s : String)
deriving DecidableEq, Repr

/-- Serialisation `ujson.dumps(v, sort_keys=True)` restricted to scalar values:
the canonical JSON serialisation. -/
def Value.dumps : Value → String
  | .none => "null"
  | .bool true => "true"
  | .bool false => "false"
  | .int n => toString n
  | .str s => "\"" ++ s ++ "\""

/-- Embeds `deep_equal` from `fasp/utils.py` and `flet_asp/utils.py`: serialise both
values with `ujson.dumps(\x7b...\x7d, sort_keys=True)` and compare the strings.  On
the scalar universe serialisation never raises, so the `a == b` fallback of
the source is not reachable here. -/
def deep_equal (a b : Value) : Bool :=
  Value.dumps a == Value.dumps b

/-- Python truthiness of a scalar value (`if get("a"):`). -/
def Value.truthy : Value → Bool
  | .none => false
  | .bool b => b
  | .int n => n != 0
  | .str s => s != ""

namespace Fasp

/-- A listener registered on a `fasp` Atom.  `id` identifies the callback;
`fails` records whether calling it raises an exception. -/
structure Listener where
  id : Nat
  fails : Bool
deriving DecidableEq, Repr

/-- Embeds the `fasp/atom.py` `Atom`: a value and an ordered listener list. -/
structure Atom where
  value : Value
  listeners : List Listener
deriving DecidableEq, Repr

/-- Embeds `Atom._notify_listeners` from `fasp/atom.py`:

```
for callback in self._listeners:
    callback(self._value)
```

There is no exception handling around the call: a listener that raises
aborts the loop and the exception propagates to the caller.  The result is
the list of performed invocations `(listener id, argument)` in order,
together with `some id` of the raising listener (`none` when the loop
completed). -/
def notifyAll : List Listener → Value → List (Nat × Value) × Option Nat
  | [], _ => ([], Option.none)
  | l :: rest, v =>
    if l.fails then
      ([(l.id, v)], Option.some l.id)
    else
      let r := notifyAll rest v
      ((l.id, v) :: r.1, r.2)

/-- Embeds `Atom.set` from `fasp/atom.py`:

```
if not deep_equal(self._value, value):
    self._value = value
    self._notify_listeners()
```

The value is stored before the listeners run, so it remains stored even when
a listener raises. -/
def Atom.set (a : Atom) (v : Value) : Atom × List (Nat × Value) × Option Nat :=
  if deep_equal a.value v then
    (a, [], Option.none)
  else
    let r := notifyAll a.listeners v
    ({ a with value := v }, r.1, r.2)

/-- Fold a sequence of `set` calls over an atom (events discarded). -/
def applySets (a : Atom) : List Value → Atom
  | [] => a
  | v :: vs => applySets (a.set v).1 vs

/-- The specification's description of the value after a sequence of `set`
calls: "the last `v` for which the equality oracle reported a change from
the prior value". -/
def lastChanged (v₀ : Value) (vs : List Value) : Value :=
  vs.foldl (fun acc v => if deep_equal acc v then acc else v) v₀

/-- The first listener in registration order whose invocation raises. -/
def firstFailing (ls : List Listener) : Option Listener :=
  ls.find? (fun l => l.fails)

end Fasp

/-! ## The `flet_asp` model: `Selector` and `StateManager` -/

/-- A listener registered on a `flet_asp` cell: either an external callback
(identified by a number; its body is outside the core and is recorded as a
trace event) or the bound method `Selector._on_dependency_change` of the
selector registered under `selKey`.  Equality of the latter models Python's
bound-method equality used by the dedup check in
`Selector._register_dependency_listeners`. -/
inductive Listener where
  | external (id : Nat)
  | depChange (selKey : String)
deriving DecidableEq, Repr

/-- Modelled from the spec: the `flet_asp` base `Atom` (its module is not in
the source tree).  A ValueCell "holds a value, a set of listeners, and a
structural-equality gate", plus an "optional `key`: owner-assigned identity"
(`StateManager.atom` constructs it as `Atom(default, key=key)`). -/
structure AtomS where
  value : Value
  listeners : List Listener
  key : Option String
deriving DecidableEq, Repr

/-- Deep embedding of the body of a selector function.  The function receives
a getter and may read keys (`get`), branch on what it read (`ite`, with
Python truthiness), return constants (`const`), or raise (`fail`). -/
inductive SelectorExpr where
  | const (v : Value)
  | get (key : String)
  | ite (c t e : SelectorExpr)
  | fail
deriving DecidableEq, Repr

/-- A selector function as passed to `add_selector`: its body plus whether it
is a coroutine function (`asyncio.iscoroutinefunction(select_fn)`).  Calling
an async function builds a coroutine without running the body; the body runs
when the coroutine is awaited. -/
structure SelectFn where
  isAsync : Bool
  body : SelectorExpr
deriving DecidableEq, Repr

/-- Embeds the `flet_asp/selector.py` `Selector.__init__` state: derived value,
listeners (inherited from `Atom`), `_dependencies`, `_cached_deps`,
`_update_depth`, `_update_lock`, `_is_updating` (assigned in the constructor
and never consulted afterwards). -/
structure SelectorS where
  fn : SelectFn
  value : Value
  listeners : List Listener
  dependencies : List String
  cachedDeps : List (String × Value)
  updateDepth : Nat
  updateLock : Bool
  isUpdating : Bool
deriving DecidableEq, Repr

/-- Embeds the `flet_asp/state.py` `StateManager`: the `_atoms` and `_selectors`
registries, as association lists in insertion order. -/
structure SM where
  atoms : List (String × AtomS)
  selectors : List (String × SelectorS)
deriving DecidableEq, Repr

/-- The manager constructed by `StateManager.__init__`. -/
def emptySM : SM := ⟨[], []⟩

/-- Errors raised by the runtime. -/
inductive Err where
  | valueError (msg : String)
  | runtimeError (msg : String)
deriving DecidableEq, Repr

/-- First-match lookup in an association list (Python dict access). -/
def alookup {α : Type} (l : List (String × α)) (k : String) : Option α :=
  match l with
  | [] => Option.none
  | (k', v) :: rest => if k' = k then Option.some v else alookup rest k

/-- Update the first entry with the given key (Python dict item assignment
for a present key). -/
def aupdate {α : Type} (l : List (String × α)) (k : String) (f : α → α) :
    List (String × α) :=
  match l with
  | [] => []
  | (k', v) :: rest =>
    if k' = k then (k', f v) :: rest else (k', v) :: aupdate rest k f

/-- Insert-or-replace (Python dict item assignment). -/
def aupsert {α : Type} (l : List (String × α)) (k : String) (v : α) :
    List (String × α) :=
  match l with
  | [] => [(k, v)]
  | (k', v') :: rest =>
    if k' = k then (k', v) :: rest else (k', v') :: aupsert rest k v

/-- Remove an entry (`dict.pop(key, None)`). -/
def aerase {α : Type} (l : List (String × α)) (k : String) :
    List (String × α) :=
  match l with
  | [] => []
  | (k', v) :: rest => if k' = k then rest else (k', v) :: aerase rest k

/-- Test `key in self._atoms`. -/
def SM.hasAtom (m : SM) (k : String) : Bool := (alookup m.atoms k).isSome

/-- Test `key in self._selectors`. -/
def SM.hasSel (m : SM) (k : String) : Bool := (alookup m.selectors k).isSome

/-- Current value of the atom stored under `k` (callers establish presence). -/
def SM.atomVal (m : SM) (k : String) : Value :=
  match alookup m.atoms k with
  | Option.some a => a.value
  | Option.none => Value.none

/-- Field update of the selector stored under `k`. -/
def SM.updSel (m : SM) (k : String) (f : SelectorS → SelectorS) : SM :=
  { m with selectors := aupdate m.selectors k f }

/-- Field update of the atom stored under `k`. -/
def SM.updAtom (m : SM) (k : String) (f : AtomS → AtomS) : SM :=
  { m with atoms := aupdate m.atoms k f }

/-- Embeds `StateManager.atom(key, default)`:

```
if key in self._selectors:
    raise ValueError(f"Key '{key}' is already registered as a Selector.")
if key not in self._atoms:
    self._atoms[key] = Atom(default, key=key)
return self._atoms[key]
```

Returns the manager with the atom ensured, or the raised error (in which
case nothing was modified). -/
def SM.atomOp (m : SM) (key : String) (default : Value) : SM × Option Err :=
  if m.hasSel key then
    (m, Option.some (Err.valueError
      ("Key '" ++ key ++ "' is already registered as a Selector.")))
  else if m.hasAtom key then
    (m, Option.none)
  else
    ({ m with atoms := m.atoms ++ [(key, ⟨default, [], Option.some key⟩)] },
      Option.none)

/-- Evaluate a selector body with the plain (non-tracking) getter

```
def getter(key: str):
    return self._get_atom(key).value
```

used by `Selector._on_dependency_change`.  `self._get_atom` is
`StateManager.atom`, so a read creates missing atoms (default `None`) and
raises on selector keys; atoms created before a raise remain created.  The
middle component records the keys read, in order, as audit instrumentation
for stating dependency-tracking properties; the source getter does not
record them. -/
def evalR : SelectorExpr → SM → SM × List String × Except Err Value
  | .const v, m => (m, [], Except.ok v)
  | .get k, m =>
    match m.atomOp k Value.none with
    | (m₁, Option.some e) => (m₁, [k], Except.error e)
    | (m₁, Option.none) => (m₁, [k], Except.ok (m₁.atomVal k))
  | .ite c t e, m =>
    match evalR c m with
    | (m₁, r₁, Except.error e₁) => (m₁, r₁, Except.error e₁)
    | (m₁, r₁, Except.ok cv) =>
      if cv.truthy then
        match evalR t m₁ with
        | (m₂, r₂, res) => (m₂, r₁ ++ r₂, res)
      else
        match evalR e m₁ with
        | (m₂, r₂, res) => (m₂, r₁ ++ r₂, res)
  | .fail, m =>
    (m, [], Except.error (Err.runtimeError "selector function raised"))

/-- Plain evaluation as performed by the source: the audit read list is
discarded. -/
def evalPlain (b : SelectorExpr) (m : SM) : SM × Except Err Value :=
  match evalR b m with
  | (m₁, _, res) => (m₁, res)

/-- Evaluate a selector body with the tracking getter of
`Selector._setup_dependencies`:

```
def getter(key: str):
    self._dependencies.add(key)
    value = self._get_atom(key).value
    self._cached_deps[key] = value
    return value
```

threading the dependency set (`deps`, as a dedup-preserving list) and the
memoisation snapshot (`cache`).  The key is added to the dependency set
before the atom is resolved, so it is recorded even when the read raises. -/
def evalTrack : SelectorExpr → SM → List String → List (String × Value) →
    SM × List String × List (String × Value) × Except Err Value
  | .const v, m, deps, cache => (m, deps, cache, Except.ok v)
  | .get k, m, deps, cache =>
    let deps₁ := if k ∈ deps then deps else deps ++ [k]
    match m.atomOp k Value.none with
    | (m₁, Option.some e) => (m₁, deps₁, cache, Except.error e)
    | (m₁, Option.none) =>
      let v := m₁.atomVal k
      (m₁, deps₁, aupsert cache k v, Except.ok v)
  | .ite c t e, m, deps, cache =>
    match evalTrack c m deps cache with
    | (m₁, deps₁, cache₁, Except.error e₁) => (m₁, deps₁, cache₁, Except.error e₁)
    | (m₁, deps₁, cache₁, Except.ok cv) =>
      if cv.truthy then evalTrack t m₁ deps₁ cache₁
      else evalTrack e m₁ deps₁ cache₁
  | .fail, m, deps, cache =>
    (m, deps, cache, Except.error (Err.runtimeError "selector function raised"))

/-- The loop of `Selector._on_dependency_change` that reads the current value
of every tracked dependency through `self._get_atom(key).value`, building
`new_dep_values`; a raise aborts the loop and propagates. -/
def readDeps (m : SM) : List String → SM × List (String × Value) × Option Err
  | [] => (m, [], Option.none)
  | k :: rest =>
    match m.atomOp k Value.none with
    | (m₁, Option.some e) => (m₁, [], Option.some e)
    | (m₁, Option.none) =>
      let v := m₁.atomVal k
      match readDeps m₁ rest with
      | (m₂, vs, err) => (m₂, (k, v) :: vs, err)

/-- Observable trace events of a propagation. -/
inductive Event where
  | invoked (l : Listener) (v : Value)
  | computeRun (selKey : String)
  | scheduledAsync (selKey : String)
  | report (msg : String)
  | fuelOut
deriving DecidableEq, Repr

/-- Pending work of the depth-first propagation interpreter: invoking one
listener with a value, a top-level `_on_dependency_change(None)` call (from
`Selector.recompute`), and the `finally:` block of
`_on_dependency_change` (restore `_update_depth`, release `_update_lock`)
that runs after the nested notifications it spawned. -/
inductive Task where
  | invoke (l : Listener) (v : Value)
  | onDepTop (selKey : String)
  | restore (selKey : String)
deriving DecidableEq, Repr

/-- The `finally:` block of `_on_dependency_change`:
`self._update_depth -= 1` and `self._update_lock.release()`. -/
def SM.restoreSel (m : SM) (selKey : String) : SM :=
  m.updSel selKey fun s =>
    { s with updateDepth := s.updateDepth - 1, updateLock := false }

/-- The cycle-guard message raised at recursion depth over 100. -/
def cycleMsg (deps : List String) : String :=
  "Circular dependency detected in selector. Dependencies: [" ++
    String.intercalate ", " deps ++
    "]. This usually means selector A depends on selector B which depends on A."

/-- One entry into `Selector._on_dependency_change` for the selector under
`selKey`, up to (but not including) the synchronous notification of the
selector's own listeners, which is returned as pending `Task.invoke` work
followed by the pending `finally:` restore.  On every other exit path the
`finally:` block is applied inline.  Returns the updated manager, the events
emitted, the pending tasks, and the error that propagates out of the call
(`_update_lock` is acquired non-blocking: a locked selector returns
immediately). -/
def onDepStep (m : SM) (selKey : String) :
    SM × List Event × List Task × Option Err :=
  match alookup m.selectors selKey with
  | Option.none => (m, [], [], Option.none)
  | Option.some s =>
    if s.updateLock then (m, [], [], Option.none)
    else
      let d := s.updateDepth + 1
      let mL := m.updSel selKey fun s₀ =>
        { s₀ with updateLock := true, updateDepth := d }
      if 100 < d then
        (mL.restoreSel selKey, [], [],
          Option.some (Err.runtimeError (cycleMsg s.dependencies)))
      else
        match readDeps mL s.dependencies with
        | (m₁, _, Option.some e) => (m₁.restoreSel selKey, [], [], Option.some e)
        | (m₁, newVals, Option.none) =>
          let changed := newVals.any fun kv =>
            match alookup s.cachedDeps kv.1 with
            | Option.none => true
            | Option.some cv => !deep_equal kv.2 cv
          if !changed then (m₁.restoreSel selKey, [], [], Option.none)
          else
            let m₂ := m₁.updSel selKey fun s₁ => { s₁ with cachedDeps := newVals }
            if s.fn.isAsync then
              (m₂.restoreSel selKey,
                [Event.computeRun selKey, Event.scheduledAsync selKey], [],
                Option.none)
            else
              match evalPlain s.fn.body m₂ with
              | (m₃, Except.error e) =>
                (m₃.restoreSel selKey, [Event.computeRun selKey], [],
                  Option.some e)
              | (m₃, Except.ok v) =>
                let cur := match alookup m₃.selectors selKey with
                  | Option.some s₁ => s₁.value
                  | Option.none => Value.none
                if deep_equal v cur then
                  (m₃.restoreSel selKey, [Event.computeRun selKey], [],
                    Option.none)
                else
                  let ls := match alookup m₃.selectors selKey with
                    | Option.some s₁ => s₁.listeners
                    | Option.none => []
                  (m₃.updSel selKey fun s₁ => { s₁ with value := v },
                    [Event.computeRun selKey],
                    ls.map (fun l => Task.invoke l v) ++ [Task.restore selKey],
                    Option.none)

/-- The depth-first propagation interpreter.  Processing a task may push the
nested calls it performs to the front of the work list, which reproduces the
inline (call-stack) execution order of the source.  Invoking a listener is
isolated: an error from a reactive callback is reported and the remaining
work continues (modelled from the spec for the absent
`flet_asp/atom.py` `_notify_listeners`: "a failing listener is reported, not
propagated, so the notification loop completes").  A top-level
`_on_dependency_change` call (from `recompute`) has no such frame around it,
so its error propagates to the API caller.  `Selector._set_value` only
deep-copies container values; on the scalar universe the stored value is the
computed value itself (see the `Heap` namespace for the container case). -/
def run : Nat → SM → List Task → SM × List Event × Option Err
  | 0, m, _ => (m, [Event.fuelOut], Option.none)
  | _ + 1, m, [] => (m, [], Option.none)
  | fuel + 1, m, t :: rest =>
    match t with
    | Task.invoke (Listener.external i) v =>
      match run fuel m rest with
      | (m', evs, err) => (m', Event.invoked (Listener.external i) v :: evs, err)
    | Task.invoke (Listener.depChange k) v =>
      match onDepStep m k with
      | (m₁, evs₁, tasks, errStep) =>
        let evs₂ := evs₁ ++ match errStep with
          | Option.some _ => [Event.report "[Atom listener error]"]
          | Option.none => []
        match run fuel m₁ (tasks ++ rest) with
        | (m', evs, err) =>
          (m', Event.invoked (Listener.depChange k) v :: evs₂ ++ evs, err)
    | Task.onDepTop k =>
      match onDepStep m k with
      | (m₁, evs₁, _tasks, Option.some e) => (m₁, evs₁, Option.some e)
      | (m₁, evs₁, tasks, Option.none) =>
        match run fuel m₁ (tasks ++ rest) with
        | (m', evs, err) => (m', evs₁ ++ evs, err)
    | Task.restore k =>
      match run fuel (m.restoreSel k) rest with
      | (m', evs, err) => (m', evs, err)

/-- Modelled from the spec: `Atom._set_value` of the absent
`flet_asp/atom.py`, as called on plain atoms by
`StateManager._set_atom_value` — the ValueCell `set`: "applies equality
gate; on change, replaces value then invokes every listener with the new
value, in registration order".  Notification runs through `run`. -/
def atomSetValue (fuel : Nat) (m : SM) (key : String) (v : Value) :
    SM × List Event :=
  match alookup m.atoms key with
  | Option.none => (m, [])
  | Option.some a =>
    if deep_equal a.value v then (m, [])
    else
      let m₁ := m.updAtom key fun a₀ => { a₀ with value := v }
      match run fuel m₁ (a.listeners.map fun l => Task.invoke l v) with
      | (m', evs, _) => (m', evs)

/-- Embeds `StateManager.set` / `StateManager._set_atom_value`:
`self.atom(key)._set_value(value)`. -/
def SM.setOp (fuel : Nat) (m : SM) (key : String) (v : Value) :
    SM × List Event × Option Err :=
  match m.atomOp key Value.none with
  | (m₁, Option.some e) => (m₁, [], Option.some e)
  | (m₁, Option.none) =>
    match atomSetValue fuel m₁ key v with
    | (m', evs) => (m', evs, Option.none)

/-- Embeds `StateManager.get`:

```
if key in self._selectors:
    return self._selectors[key].value
return self.atom(key).value
```
-/
def SM.getOp (m : SM) (key : String) : SM × Value × Option Err :=
  match alookup m.selectors key with
  | Option.some s => (m, s.value, Option.none)
  | Option.none =>
    match m.atomOp key Value.none with
    | (m₁, Option.some e) => (m₁, Value.none, Option.some e)
    | (m₁, Option.none) => (m₁, m₁.atomVal key, Option.none)

/-- Embeds `Selector._register_dependency_listeners`: for each tracked dependency,
append `self._on_dependency_change` to the dependency atom's listener list
unless an equal callback is already registered (`immediate=False`, so the
callback is not invoked here).  The dependencies were materialised as atoms
by the tracking evaluation that discovered them. -/
def registerDepListeners (m : SM) (selKey : String) : List String → SM
  | [] => m
  | k :: rest =>
    let m₁ := m.updAtom k fun a =>
      if Listener.depChange selKey ∈ a.listeners then a
      else { a with listeners := a.listeners ++ [Listener.depChange selKey] }
    registerDepListeners m₁ selKey rest

/-- Embeds `StateManager.add_selector` together with `Selector.__init__` /
`Selector._setup_dependencies`:

```
if key in self._atoms:
    raise ValueError(f"Key '{key}' is already registered as an Atom.")
if key not in self._selectors:
    self._selectors[key] = Selector(select_fn, self.atom)
```

For a synchronous function the constructor evaluates the body with the
tracking getter, registers dependency listeners, and only then is the
selector stored; a raise from the tracking evaluation propagates out of
`add_selector`, discarding the selector but keeping any atoms the getter
created.  For a coroutine function the initial value is `None` and the
initial tracked run is scheduled asynchronously
(`_schedule_async_with_tracking`); its later completion is outside this
step. -/
def SM.addSelectorOp (m : SM) (key : String) (fn : SelectFn) : SM × Option Err :=
  if m.hasAtom key then
    (m, Option.some (Err.valueError
      ("Key '" ++ key ++ "' is already registered as an Atom.")))
  else if m.hasSel key then
    (m, Option.none)
  else if fn.isAsync then
    ({ m with selectors := m.selectors ++
        [(key, ⟨fn, Value.none, [], [], [], 0, false, false⟩)] },
      Option.none)
  else
    match evalTrack fn.body m [] [] with
    | (m₁, _, _, Except.error e) => (m₁, Option.some e)
    | (m₁, deps, cache, Except.ok v) =>
      let m₂ := registerDepListeners m₁ key deps
      ({ m₂ with selectors := m₂.selectors ++
          [(key, ⟨fn, v, [], deps, cache, 0, false, false⟩)] },
        Option.none)

/-- Embeds `Selector._handle_async`: await the coroutine produced by a recomputation
and apply `_set_value`; any exception is caught and printed, leaving the
value untouched:

```
try:
    result = await coro
    self._set_value(result)
except Exception as e:
    print(f"[Selector async error]: \x7be\x7d")
```

The coroutine body runs at await time against the manager state at await
time. -/
def handleAsync (fuel : Nat) (m : SM) (selKey : String) (body : SelectorExpr) :
    SM × List Event :=
  match evalPlain body m with
  | (m₁, Except.error _) => (m₁, [Event.report "[Selector async error]"])
  | (m₁, Except.ok v) =>
    let cur := match alookup m₁.selectors selKey with
      | Option.some s => s.value
      | Option.none => Value.none
    if deep_equal v cur then (m₁, [])
    else
      let ls := match alookup m₁.selectors selKey with
        | Option.some s => s.listeners
        | Option.none => []
      let m₂ := m₁.updSel selKey fun s => { s with value := v }
      match run fuel m₂ (ls.map fun l => Task.invoke l v) with
      | (m', evs, _) => (m', evs)

/-- Embeds `StateManager.listen`: resolve the cell (selectors take priority; unknown
keys are created as atoms by `self.atom(key)`), skip if an equal callback is
registered, otherwise `atom.listen(callback, immediate)` — append and, when
`immediate`, invoke the callback once with the current value. -/
def SM.listenOp (fuel : Nat) (m : SM) (key : String) (l : Listener)
    (immediate : Bool) : SM × List Event × Option Err :=
  match alookup m.selectors key with
  | Option.some s =>
    if l ∈ s.listeners then (m, [], Option.none)
    else
      let m₁ := m.updSel key fun s₀ => { s₀ with listeners := s₀.listeners ++ [l] }
      if immediate then
        match run fuel m₁ [Task.invoke l s.value] with
        | (m', evs, err) => (m', evs, err)
      else (m₁, [], Option.none)
  | Option.none =>
    match m.atomOp key Value.none with
    | (m₁, Option.some e) => (m₁, [], Option.some e)
    | (m₁, Option.none) =>
      match alookup m₁.atoms key with
      | Option.none => (m₁, [], Option.none)
      | Option.some a =>
        if l ∈ a.listeners then (m₁, [], Option.none)
        else
          let m₂ := m₁.updAtom key fun a₀ =>
            { a₀ with listeners := a₀.listeners ++ [l] }
          if immediate then
            match run fuel m₂ [Task.invoke l a.value] with
            | (m', evs, err) => (m', evs, err)
          else (m₂, [], Option.none)

/-- Embeds `StateManager.reset`:

```
if key in self._atoms:
    self._set_atom_value(key, value)
elif key in self._selectors:
    raise ValueError(f"Selector '{key}' cannot be reset directly.")
```
-/
def SM.resetOp (fuel : Nat) (m : SM) (key : String) (v : Value) :
    SM × List Event × Option Err :=
  if m.hasAtom key then m.setOp fuel key v
  else if m.hasSel key then
    (m, [], Option.some (Err.valueError
      ("Selector '" ++ key ++ "' cannot be reset directly.")))
  else (m, [], Option.none)

/-- Embeds `StateManager.delete`: pop the key from both registries without running
listeners. -/
def SM.deleteOp (m : SM) (key : String) : SM :=
  ⟨aerase m.atoms key, aerase m.selectors key⟩

/-- Embeds `StateManager.clear`: clear every cell's listener list, then empty both
registries. -/
def SM.clearOp (_ : SM) : SM := emptySM

/-- Embeds `StateManager.invalidate`: for a selector key, `Selector.recompute` —
clear `_cached_deps` and call `_on_dependency_change(None)` directly (no
surrounding listener frame, so its error propagates); no-op otherwise. -/
def SM.invalidateOp (fuel : Nat) (m : SM) (key : String) :
    SM × List Event × Option Err :=
  if m.hasSel key then
    let m₁ := m.updSel key fun s => { s with cachedDeps := [] }
    run fuel m₁ [Task.onDepTop key]
  else (m, [], Option.none)

/-- Embeds `StateManager.has`: `key in self._atoms or key in self._selectors`. -/
def SM.hasOp (m : SM) (key : String) : Bool :=
  m.hasAtom key || m.hasSel key

/-- The public `StateManager` operations, for stating registry invariants. -/
inductive Op where
  | atomC (key : String) (default : Value)
  | addSel (key : String) (fn : SelectFn)
  | get (key : String)
  | set (key : String) (v : Value)
  | listen (key : String) (l : Listener) (immediate : Bool)
  | reset (key : String) (v : Value)
  | delete (key : String)
  | clear
  | invalidate (key : String)

/-- Post-state of one public operation (raised errors leave the partially
updated state, as in the source). -/
def applyOp (fuel : Nat) (m : SM) : Op → SM
  | .atomC key default => (m.atomOp key default).1
  | .addSel key fn => (m.addSelectorOp key fn).1
  | .get key => (m.getOp key).1
  | .set key v => (m.setOp fuel key v).1
  | .listen key l immediate => (m.listenOp fuel key l immediate).1
  | .reset key v => (m.resetOp fuel key v).1
  | .delete key => m.deleteOp key
  | .clear => m.clearOp
  | .invalidate key => (m.invalidateOp fuel key).1

/-- The key sets of the two registries are disjoint: no key registered as
an atom is also registered as a selector. -/
def SM.Disjoint (m : SM) : Prop :=
  ∀ p ∈ m.atoms, m.hasSel p.1 = false

instance (m : SM) : Decidable m.Disjoint :=
  inferInstanceAs (Decidable (∀ p ∈ m.atoms, m.hasSel p.1 = false))

/-- Step relation used to prove preservation of registry disjointness: the
operation left the selector key set unchanged and only created atoms under
keys that are not selector keys. -/
def Preserves (m m' : SM) : Prop :=
  (∀ k, m'.hasSel k = m.hasSel k) ∧
  (∀ k, m'.hasAtom k = true → m.hasAtom k = true ∨ m.hasSel k = false)

/-- Fold `set.add` over a list of read keys: the dependency set (as a
dedup-preserving list) accumulated by the tracking getter. -/
def addAll (deps : List String) (reads : List String) : List String :=
  reads.foldl (fun d k => if k ∈ d then d else d ++ [k]) deps

/-- View of the tracked dependency set of the selector stored under a key
(used to state dependency-tracking properties). -/
def selDeps (m : SM) (k : String) : Option (List String) :=
  (alookup m.selectors k).map fun s => s.dependencies

/-- The per-dependency memoisation test of `Selector._on_dependency_change`:
a tracked key counts as changed when it is absent from `_cached_deps` or its
current atom value is not `deep_equal` to the cached snapshot. -/
def depChanged (m : SM) (s : SelectorS) (k : String) : Bool :=
  match alookup s.cachedDeps k with
  | Option.none => true
  | Option.some cv => !deep_equal (m.atomVal k) cv

/-- Registration-time guard used to state the corrected disjointness
invariant: a synchronous selector registered under `key` must not read `key`
itself during its initial tracked evaluation. -/
def opSafe (m : SM) : Op → Prop
  | .addSel key fn =>
    fn.isAsync = false → key ∉ (evalTrack fn.body m [] []).2.1
  | _ => True

/-- Selector body of the dynamic-dependency scenario:
`lambda get: get("b") if get("a") else get("c")`. -/
def c3Body : SelectorExpr := .ite (.get "a") (.get "b") (.get "c")

/-- Scenario state: atoms `a=True`, `b=1`, `c=2` and the selector `f` with
body `c3Body`; its initial evaluation reads `a` (truthy) and `b`. -/
def c3M0 : SM :=
  ((((emptySM.atomOp "a" (Value.bool true)).1.atomOp "b" (Value.int 1)).1.atomOp
      "c" (Value.int 2)).1.addSelectorOp "f" ⟨false, c3Body⟩).1

/-- Scenario state after `set("a", False)`: the write triggers a complete
synchronous recomputation of `f`, which reads `a` and `c`. -/
def c3M1 : SM := (c3M0.setOp 10 "a" (Value.bool false)).1

/-! ## Object-graph model of `Selector._set_value` (deep copies, aliasing)

Scalar values cannot be mutated in place, so the copy-on-store behaviour of
`Selector._set_value` is modelled on an explicit object graph: a heap of
numbered objects whose containers hold addresses of their elements.  The
value universe here covers `None`/`bool`/`int`/`str` scalars, tuples, lists
and dicts; Python's `set` (the third member of the `isinstance` check in the
source) behaves like `list`/`dict` for the purpose of the copy branch and is
omitted from the universe because `ujson` cannot serialise it. -/

namespace Heap

/-- A heap node: a scalar, or a container holding addresses (`Nat` values
standing for Python object identities). -/
inductive PyObj where
  | scalar (v : Value)
  | tup (elems : List Nat)
  | lst (elems : List Nat)
  | dct (fields : List (String × Nat))
deriving DecidableEq, Repr

/-- A heap: the allocated objects plus an allocation bound (every allocated
address is below `fresh`). -/
structure PyHeap where
  objs : List (Nat × PyObj)
  fresh : Nat
deriving DecidableEq, Repr

/-- First-match lookup of an object. -/
def lookupObj (h : PyHeap) (a : Nat) : Option PyObj :=
  go h.objs a
where
  go : List (Nat × PyObj) → Nat → Option PyObj
    | [], _ => Option.none
    | (a', o) :: rest, a => if a' = a then Option.some o else go rest a

/-- Child addresses directly referenced by a node. -/
def PyObj.children : PyObj → List Nat
  | .scalar _ => []
  | .tup es => es
  | .lst es => es
  | .dct fs => fs.map (fun f => f.2)

/-- The branch test of `Selector._set_value`:
`isinstance(new_value, (dict, list, set))`.  Tuples and scalars take the
else branch and are assigned directly. -/
def isContainer : PyObj → Bool
  | .lst _ => true
  | .dct _ => true
  | _ => false

/-- In-place mutation of the object stored at an address (external code
mutating a list/dict it holds a reference to). -/
def mutate (h : PyHeap) (a : Nat) (o : PyObj) : PyHeap :=
  { h with objs := (a, o) :: h.objs }

/-- Well-formed heap: allocated addresses and all referenced children lie
below the allocation bound. -/
def Wf (h : PyHeap) : Prop :=
  ∀ p ∈ h.objs, p.1 < h.fresh ∧ ∀ c ∈ p.2.children, c < h.fresh

instance (h : PyHeap) : Decidable (Wf h) :=
  inferInstanceAs (Decidable (∀ p ∈ h.objs, _ ∧ _))

/-- Insertion into a key-sorted field list (for `sort_keys=True`). -/
def insertField (p : String × Nat) : List (String × Nat) →
    List (String × Nat)
  | [] => [p]
  | q :: rest => if p.1 ≤ q.1 then p :: q :: rest else q :: insertField p rest

/-- Sort a dict's fields by key (for `sort_keys=True`). -/
def sortFields : List (String × Nat) → List (String × Nat)
  | [] => []
  | p :: rest => insertField p (sortFields rest)

mutual

/-- Serialisation `ujson.dumps(obj, sort_keys=True)` over the object graph,
fuelled to stay total on cyclic heaps (`ujson` raises `OverflowError` on
circular references); `Option.none` models a raised serialisation error. -/
def dumps : Nat → PyHeap → Nat → Option String
  | 0, _, _ => Option.none
  | fuel + 1, h, a =>
    match lookupObj h a with
    | Option.none => Option.none
    | Option.some (.scalar v) => Option.some v.dumps
    | Option.some (.tup es) =>
      (dumpsList fuel h es).map fun ss =>
        "[" ++ String.intercalate "," ss ++ "]"
    | Option.some (.lst es) =>
      (dumpsList fuel h es).map fun ss =>
        "[" ++ String.intercalate "," ss ++ "]"
    | Option.some (.dct fs) =>
      (dumpsFields fuel h (sortFields fs)).map fun ss =>
        "\x7b" ++ String.intercalate "," ss ++ "\x7d"

/-- Serialise a list of element addresses. -/
def dumpsList : Nat → PyHeap → List Nat → Option (List String)
  | _, _, [] => Option.some []
  | fuel, h, a :: rest =>
    match dumps fuel h a, dumpsList fuel h rest with
    | Option.some s, Option.some ss => Option.some (s :: ss)
    | _, _ => Option.none

/-- Serialise a (sorted) list of dict fields. -/
def dumpsFields : Nat → PyHeap → List (String × Nat) → Option (List String)
  | _, _, [] => Option.some []
  | fuel, h, f :: rest =>
    match dumps fuel h f.2, dumpsFields fuel h rest with
    | Option.some s, Option.some ss =>
      Option.some (("\"" ++ f.1 ++ "\":" ++ s) :: ss)
    | _, _ => Option.none

end

/-- Embeds `deep_equal` over the object graph: serialise both and compare;
when either serialisation raises, the source falls back to `a == b`, modelled
conservatively by identity of the addresses. -/
def hDeepEqual (fuel : Nat) (h : PyHeap) (a b : Nat) : Bool :=
  match dumps fuel h a, dumps fuel h b with
  | Option.some x, Option.some y => x == y
  | _, _ => a == b

/-- Allocate a node at the next fresh address. -/
def alloc (h : PyHeap) (o : PyObj) : PyHeap × Nat :=
  ({ objs := (h.fresh, o) :: h.objs, fresh := h.fresh + 1 }, h.fresh)

mutual

/-- Model of `copy.deepcopy`: structurally copy the object graph reachable
from an address into fresh nodes.  (CPython shares immutable leaves instead
of copying them; since scalars cannot be mutated, copying them as well is
observationally equal and keeps the model uniform.) -/
def deepcopy : Nat → PyHeap → Nat → Option (PyHeap × Nat)
  | 0, _, _ => Option.none
  | fuel + 1, h, a =>
    match lookupObj h a with
    | Option.none => Option.none
    | Option.some (.scalar v) => Option.some (alloc h (.scalar v))
    | Option.some (.tup es) =>
      (deepcopyList fuel h es).map fun p => alloc p.1 (.tup p.2)
    | Option.some (.lst es) =>
      (deepcopyList fuel h es).map fun p => alloc p.1 (.lst p.2)
    | Option.some (.dct fs) =>
      (deepcopyFields fuel h fs).map fun p => alloc p.1 (.dct p.2)

/-- Copy each element address in order, threading the heap. -/
def deepcopyList : Nat → PyHeap → List Nat → Option (PyHeap × List Nat)
  | _, h, [] => Option.some (h, [])
  | fuel, h, a :: rest =>
    match deepcopy fuel h a with
    | Option.none => Option.none
    | Option.some (h₁, a') =>
      (deepcopyList fuel h₁ rest).map fun p => (p.1, a' :: p.2)

/-- Copy each field's value address in order, keeping keys. -/
def deepcopyFields : Nat → PyHeap → List (String × Nat) →
    Option (PyHeap × List (String × Nat))
  | _, h, [] => Option.some (h, [])
  | fuel, h, f :: rest =>
    match deepcopy fuel h f.2 with
    | Option.none => Option.none
    | Option.some (h₁, a') =>
      (deepcopyFields fuel h₁ rest).map fun p => (p.1, (f.1, a') :: p.2)

end

/-- Embeds `Selector._set_value` on the object graph, for an immediate
(non-awaitable) recomputation result at address `r` against the currently
stored value at address `cur`:

```
if not deep_equal(new_value, self._value):
    if isinstance(new_value, (dict, list, set)):
        self._value = copy.deepcopy(new_value)
    else:
        self._value = new_value
    self._notify_listeners()
```

Returns the heap, the stored address, and whether listeners were notified;
`Option.none` only on fuel exhaustion or a dangling address. -/
def hSetValue (fuel : Nat) (h : PyHeap) (cur r : Nat) :
    Option (PyHeap × Nat × Bool) :=
  if hDeepEqual fuel h r cur then Option.some (h, cur, false)
  else
    match lookupObj h r with
    | Option.none => Option.none
    | Option.some o =>
      if isContainer o then
        (deepcopy fuel h r).map fun p => (p.1, p.2, true)
      else Option.some (h, r, true)

/-- Scenario heap for the tuple-aliasing counterexample: address 0 holds the
empty list, address 1 the tuple `([],)` wrapping it, address 2 the selector's
current value `None`, address 3 the integer `7`. -/
def h8 : PyHeap :=
  ⟨[(0, .lst []), (1, .tup [0]), (2, .scalar Value.none),
    (3, .scalar (Value.int 7))], 4⟩

/-- Scenario heap for the list-copy case: address 0 holds the list `[7]`
(element at address 3), address 2 the selector's current value `None`. -/
def h8b : PyHeap :=
  ⟨[(0, .lst [3]), (2, .scalar Value.none), (3, .scalar (Value.int 7))], 4⟩

/-- The heap after `hSetValue` deep-copies the list of `h8b`: the copy
occupies the fresh addresses 4 (the copied `7`) and 5 (the copied list). -/
def h8c : PyHeap :=
  ⟨[(5, .lst [4]), (4, .scalar (Value.int 7)), (0, .lst [3]),
    (2, .scalar Value.none), (3, .scalar (Value.int 7))], 6⟩

end Heap

/-! ## Lemmas about the `fasp` Atom -/

theorem fasp_notifyAll_ok (ls : List Fasp.Listener) (v : Value)
    (h : ∀ l ∈ ls, l.fails = false) :
    Fasp.notifyAll ls v = (ls.map (fun l => (l.id, v)), Option.none) := by
  induction ls with
  | nil => rfl
  | cons l rest ih =>
    have hl : l.fails = false := h l (List.mem_cons_self l rest)
    have hr := ih fun x hx => h x (List.mem_cons_of_mem l hx)
    simp [Fasp.notifyAll, hl, hr]

theorem fasp_notifyAll_firstFailing (ls : List Fasp.Listener) (v : Value)
    (lf : Fasp.Listener) (h : Fasp.firstFailing ls = Option.some lf) :
    Fasp.notifyAll ls v =
      ((ls.takeWhile fun l => !l.fails).map (fun l => (l.id, v)) ++
        [(lf.id, v)], Option.some lf.id) := by
  induction ls with
  | nil => simp [Fasp.firstFailing] at h
  | cons l rest ih =>
    cases hl : l.fails with
    | false =>
      have hrest : Fasp.firstFailing rest = Option.some lf := by
        simpa [Fasp.firstFailing, List.find?, hl] using h
      simp [Fasp.notifyAll, hl, List.takeWhile_cons, ih hrest]
    | true =>
      have hlf : lf = l := by
        simp [Fasp.firstFailing, List.find?, hl] at h
        exact h.symm
      subst hlf
      simp [Fasp.notifyAll, hl, List.takeWhile_cons]

theorem fasp_applySets_value (vs : List Value) :
    ∀ a : Fasp.Atom, (Fasp.applySets a vs).value = Fasp.lastChanged a.value vs := by
  induction vs with
  | nil => intro a; rfl
  | cons v rest ih =>
    intro a
    unfold Fasp.applySets Fasp.lastChanged
    cases hd : deep_equal a.value v with
    | false =>
      simp only [Fasp.Atom.set, hd, List.foldl_cons, Bool.false_eq_true, if_false]
      simpa [Fasp.lastChanged] using ih { a with value := v }
    | true =>
      simp only [Fasp.Atom.set, hd, List.foldl_cons, if_true]
      simpa [Fasp.lastChanged] using ih a

/-! ## Claim C2 -/

/-- C2: for every `fasp` Atom and every call `set(v)`: if
`deep_equal(storedValue, v)` is false, the stored value becomes `v` and
every registered listener is invoked exactly once with the new value; if the
oracle reports equality, the stored value is unchanged and no listener is
invoked.  Hence over any sequence of `set` calls, the stored value is the
last `v` for which the oracle reported a change, and no-op writes change
neither the value nor any invocation count. -/
theorem C2_atom_set_equality_gate (a : Fasp.Atom)
    (h : ∀ l ∈ a.listeners, l.fails = false) :
    (∀ v : Value,
      (deep_equal a.value v = false →
        (a.set v).1.value = v ∧
        (a.set v).2.1 = a.listeners.map (fun l => (l.id, v)) ∧
        (a.set v).2.2 = Option.none) ∧
      (deep_equal a.value v = true →
        (a.set v).1 = a ∧ (a.set v).2.1 = [] ∧ (a.set v).2.2 = Option.none)) ∧
    ∀ vs : List Value,
      (Fasp.applySets a vs).value = Fasp.lastChanged a.value vs := by
  constructor
  · intro v
    constructor
    · intro hv
      simp [Fasp.Atom.set, hv, fasp_notifyAll_ok a.listeners v h]
    · intro hv
      simp [Fasp.Atom.set, hv]
  · intro vs
    exact fasp_applySets_value vs a

/-- Witness for C2 at a concrete atom and write sequence. -/
theorem C2_atom_set_equality_gate_witness :
    (∀ l ∈ ([⟨1, false⟩, ⟨2, false⟩] : List Fasp.Listener), l.fails = false) ∧
    (Fasp.applySets ⟨Value.int 0, [⟨1, false⟩, ⟨2, false⟩]⟩
        [Value.int 1, Value.int 1, Value.int 5]).value =
      Fasp.lastChanged (Value.int 0) [Value.int 1, Value.int 1, Value.int 5] :=
  ⟨by decide,
    (C2_atom_set_equality_gate ⟨Value.int 0, [⟨1, false⟩, ⟨2, false⟩]⟩
        (by decide)).2 [Value.int 1, Value.int 1, Value.int 5]⟩

/-! ## Claim C5 -/

/-- C5 counterexample: on the atom with value `0` and listeners
`[l1 (raises), l2]`, the call `set(1)` propagates `l1`'s exception out of
`set` (`_notify_listeners` has no try/except) and `l2` is never invoked —
the claim asserts the exception is reported rather than propagated and that
`l2` still runs. -/
theorem C5_listener_exception_cx :
    (Fasp.Atom.set ⟨Value.int 0, [⟨1, true⟩, ⟨2, false⟩]⟩
        (Value.int 1)).2.2 = Option.some 1 ∧
    (Fasp.Atom.set ⟨Value.int 0, [⟨1, true⟩, ⟨2, false⟩]⟩
        (Value.int 1)).2.1 = [(1, Value.int 1)] := by
  decide

/-- C5 amended: on a value change, listeners run in registration order with
the new value up to and including the first listener that raises; its
exception propagates out of the `set` call and the remaining listeners are
not invoked.  The write itself is not undone: the new value is stored before
notification. -/
theorem C5_listener_exception_amended (a : Fasp.Atom) (v : Value)
    (lf : Fasp.Listener) (hneq : deep_equal a.value v = false)
    (hf : Fasp.firstFailing a.listeners = Option.some lf) :
    (a.set v).2.2 = Option.some lf.id ∧
    (a.set v).2.1 =
      (a.listeners.takeWhile fun l => !l.fails).map (fun l => (l.id, v)) ++
        [(lf.id, v)] ∧
    (a.set v).1.value = v ∧ (a.set v).1.listeners = a.listeners := by
  have hn := fasp_notifyAll_firstFailing a.listeners v lf hf
  simp [Fasp.Atom.set, hneq, hn]

/-- Witness for the amended C5 at a concrete atom. -/
theorem C5_listener_exception_amended_witness :
    (deep_equal (Value.int 0) (Value.int 5) = false ∧
      Fasp.firstFailing [⟨3, false⟩, ⟨7, true⟩, ⟨9, false⟩] =
        Option.some ⟨7, true⟩) ∧
    (Fasp.Atom.set ⟨Value.int 0, [⟨3, false⟩, ⟨7, true⟩, ⟨9, false⟩]⟩
        (Value.int 5)).2.2 = Option.some 7 :=
  ⟨⟨by decide, by decide⟩,
    (C5_listener_exception_amended
        ⟨Value.int 0, [⟨3, false⟩, ⟨7, true⟩, ⟨9, false⟩]⟩ (Value.int 5)
        ⟨7, true⟩ (by decide) (by decide)).1⟩

/-! ## Association-list lemmas -/

theorem alookup_append {α : Type} (l₁ l₂ : List (String × α)) (k : String) :
    alookup (l₁ ++ l₂) k =
      match alookup l₁ k with
      | Option.some v => Option.some v
      | Option.none => alookup l₂ k := by
  induction l₁ with
  | nil => simp [alookup]
  | cons p rest ih =>
    by_cases hk : p.1 = k
    · simp [alookup, hk]
    · simpa [alookup, hk] using ih

theorem alookup_eq_none_of_isSome_false {α : Type} {l : List (String × α)}
    {k : String} (h : (alookup l k).isSome = false) :
    alookup l k = Option.none := by
  cases hl : alookup l k with
  | none => rfl
  | some v => rw [hl] at h; simp at h

theorem alookup_aupdate {α : Type} (l : List (String × α)) (k k' : String)
    (f : α → α) :
    alookup (aupdate l k f) k' =
      if k' = k then (alookup l k).map f else alookup l k' := by
  induction l with
  | nil => by_cases h : k' = k <;> simp [alookup, aupdate, h]
  | cons p rest ih =>
    rcases p with ⟨pk, pv⟩
    by_cases h1 : pk = k
    · subst h1
      by_cases h2 : k' = pk
      · subst h2
        simp [alookup, aupdate]
      · have h2' : ¬ pk = k' := fun hc => h2 hc.symm
        simp [alookup, aupdate, h2, h2']
    · by_cases h2 : pk = k'
      · subst h2
        simp [alookup, aupdate, h1]
      · simp [alookup, aupdate, h1, h2, ih]

theorem aupdate_id {α : Type} (l : List (String × α)) (k : String)
    (f : α → α) (h : ∀ v, alookup l k = Option.some v → f v = v) :
    aupdate l k f = l := by
  induction l with
  | nil => rfl
  | cons p rest ih =>
    rcases p with ⟨pk, pv⟩
    by_cases hk : pk = k
    · subst hk
      have hfix := h pv (by simp [alookup])
      simp [aupdate, hfix]
    · have hrest : ∀ v, alookup rest k = Option.some v → f v = v := by
        intro v hv
        exact h v (by simpa [alookup, hk] using hv)
      simp [aupdate, hk, ih hrest]

theorem aupdate_aupdate {α : Type} (l : List (String × α)) (k : String)
    (f g : α → α) :
    aupdate (aupdate l k f) k g = aupdate l k (fun x => g (f x)) := by
  induction l with
  | nil => rfl
  | cons p rest ih =>
    by_cases hk : p.1 = k
    · simp [aupdate, hk]
    · simp [aupdate, hk, ih]

theorem aerase_lookup_isSome {α : Type} (l : List (String × α)) (k k' : String)
    (h : (alookup (aerase l k) k').isSome = true) :
    (alookup l k').isSome = true := by
  induction l with
  | nil => simp [aerase, alookup] at h
  | cons p rest ih =>
    by_cases hk : p.1 = k
    · rw [aerase, if_pos hk] at h
      by_cases hk' : p.1 = k'
      · simp [alookup, hk']
      · simpa [alookup, hk'] using h
    · rw [aerase, if_neg hk] at h
      by_cases hk' : p.1 = k'
      · simp [alookup, hk']
      · rw [alookup, if_neg hk'] at h
        simpa [alookup, hk'] using ih h

/-! ## Claim C6 -/

/-- C6 counterexample: on an empty manager, `get("x")` creates an atom for
the unknown key `"x"` (with default `None`), so afterwards `has("x")` is
true and the registry changed — the claim asserts `get` never creates a
cell and `has` stays false. -/
theorem C6_get_creates_cx :
    emptySM.hasOp "x" = false ∧
    (emptySM.getOp "x").1.hasOp "x" = true ∧
    (emptySM.getOp "x").1 =
      ⟨[("x", ⟨Value.none, [], Option.some "x"⟩)], []⟩ := by
  decide

/-- C6 amended: for a key in neither registry, `StateManager.get` routes
through `self.atom(key)` and thereby creates a fresh Atom for it with
default `None`; the call returns `None` and afterwards `has(key)` is true.
Cells are thus created implicitly by `get`, not only by the explicit
`atom(key, default)` path. -/
theorem C6_get_unknown_creates (m : SM) (key : String)
    (ha : m.hasAtom key = false) (hs : m.hasSel key = false) :
    m.getOp key =
      ({ m with atoms := m.atoms ++ [(key, ⟨Value.none, [], Option.some key⟩)] },
        Value.none, Option.none) ∧
    (m.getOp key).1.hasOp key = true := by
  have hs' : alookup m.selectors key = Option.none :=
    alookup_eq_none_of_isSome_false hs
  have ha' : alookup m.atoms key = Option.none :=
    alookup_eq_none_of_isSome_false ha
  have hval : alookup (m.atoms ++ [(key, (⟨Value.none, [], Option.some key⟩ : AtomS))]) key =
      Option.some ⟨Value.none, [], Option.some key⟩ := by
    rw [alookup_append, ha']
    simp [alookup]
  constructor
  · simp [SM.getOp, SM.atomOp, SM.hasSel, SM.hasAtom, hs', ha', SM.atomVal, hval]
  · simp [SM.getOp, SM.atomOp, SM.hasSel, SM.hasAtom, SM.hasOp, hs', ha', hval]

/-- Witness for the amended C6 on a one-atom manager. -/
theorem C6_get_unknown_creates_witness :
    ((⟨[("y", ⟨Value.int 3, [], Option.some "y"⟩)], []⟩ : SM).hasAtom "x" = false ∧
      (⟨[("y", ⟨Value.int 3, [], Option.some "y"⟩)], []⟩ : SM).hasSel "x" = false) ∧
    ((⟨[("y", ⟨Value.int 3, [], Option.some "y"⟩)], []⟩ : SM).getOp "x").1.hasOp "x" = true :=
  ⟨⟨by decide, by decide⟩,
    (C6_get_unknown_creates ⟨[("y", ⟨Value.int 3, [], Option.some "y"⟩)], []⟩ "x"
        (by decide) (by decide)).2⟩

/-! ## Claim C10 -/

/-- C10: for a key registered as a Selector, `StateManager.set` raises
`ValueError` — the write path routes through `self.atom(key)`, which rejects
selector keys — and the failed call leaves the manager (both registries and
the selector's value) unchanged and produces no notification. -/
theorem C10_set_selector_key_raises (fuel : Nat) (m : SM) (key : String)
    (v : Value) (h : m.hasSel key = true) :
    m.setOp fuel key v =
      (m, [], Option.some (Err.valueError
        ("Key '" ++ key ++ "' is already registered as a Selector."))) := by
  simp [SM.setOp, SM.atomOp, h]

/-- Witness for C10 on a manager holding one selector. -/
theorem C10_set_selector_key_raises_witness :
    (emptySM.addSelectorOp "sel" ⟨false, SelectorExpr.const (Value.int 5)⟩).1.hasSel
        "sel" = true ∧
    (emptySM.addSelectorOp "sel" ⟨false, SelectorExpr.const (Value.int 5)⟩).1.setOp
        10 "sel" (Value.int 7) =
      ((emptySM.addSelectorOp "sel" ⟨false, SelectorExpr.const (Value.int 5)⟩).1,
        [], Option.some (Err.valueError
          ("Key '" ++ "sel" ++ "' is already registered as a Selector."))) :=
  ⟨by decide,
    C10_set_selector_key_raises 10
      (emptySM.addSelectorOp "sel" ⟨false, SelectorExpr.const (Value.int 5)⟩).1
      "sel" (Value.int 7) (by decide)⟩

/-! ## Claim C4 -/

/-- C4 counterexample: the cyclic configuration of the claim cannot be
constructed, so the depth-bound cycle error is never raised for it.
Registering selector `A` with body `get("B")` succeeds (implicitly creating
atom `B` with value `None`); then registering selector `B` with body
`get("A")` raises `ValueError` at registration time — not the
`RuntimeError` cycle error during propagation — and leaves the manager
unchanged. -/
theorem C4_cycle_cx :
    (emptySM.addSelectorOp "A" ⟨false, SelectorExpr.get "B"⟩).2 =
      Option.none ∧
    ((emptySM.addSelectorOp "A" ⟨false, SelectorExpr.get "B"⟩).1.addSelectorOp
        "B" ⟨false, SelectorExpr.get "A"⟩).2 =
      Option.some (Err.valueError
        "Key 'B' is already registered as an Atom.") ∧
    ((emptySM.addSelectorOp "A" ⟨false, SelectorExpr.get "B"⟩).1.addSelectorOp
        "B" ⟨false, SelectorExpr.get "A"⟩).1 =
      (emptySM.addSelectorOp "A" ⟨false, SelectorExpr.get "B"⟩).1 := by
  decide

/-- C4 amended: a dependency cycle between selectors cannot be constructed:
while registering a selector, reading any key already registered as a
Selector raises `ValueError` from the resolver (`StateManager.atom`) at
registration time, before the new selector is stored, leaving the manager
unchanged — so propagation never encounters a selector-selector cycle and
neither hangs nor overflows.  The `_update_depth > 100` guard of
`_on_dependency_change` raises the cycle `RuntimeError` (naming the
dependency set) exactly when the handler is entered unlocked at depth at
least 100. -/
theorem C4_cycle_amended (m : SM) (A B : String)
    (hA : m.hasSel A = true) (hB1 : m.hasAtom B = false)
    (hB2 : m.hasSel B = false) :
    (m.addSelectorOp B ⟨false, SelectorExpr.get A⟩ =
      (m, Option.some (Err.valueError
        ("Key '" ++ A ++ "' is already registered as a Selector.")))) ∧
    ∀ (m' : SM) (k : String) (s : SelectorS),
      alookup m'.selectors k = Option.some s → s.updateLock = false →
      100 ≤ s.updateDepth →
      (onDepStep m' k).2.2.2 =
        Option.some (Err.runtimeError (cycleMsg s.dependencies)) := by
  constructor
  · simp [SM.addSelectorOp, hB1, hB2, evalTrack, SM.atomOp, hA]
  · intro m' k s hsel hlock hdepth
    have hgt : 100 < s.updateDepth + 1 := by omega
    simp [onDepStep, hsel, hlock, hgt]

/-- Witness for the amended C4: a concrete rejected registration and a
concrete depth-guard firing. -/
theorem C4_cycle_amended_witness :
    ((emptySM.addSelectorOp "A" ⟨false, SelectorExpr.const (Value.int 1)⟩).1.hasSel
        "A" = true) ∧
    ((emptySM.addSelectorOp "A" ⟨false, SelectorExpr.const (Value.int 1)⟩).1.addSelectorOp
        "B" ⟨false, SelectorExpr.get "A"⟩ =
      ((emptySM.addSelectorOp "A" ⟨false, SelectorExpr.const (Value.int 1)⟩).1,
        Option.some (Err.valueError
          ("Key '" ++ "A" ++ "' is already registered as a Selector.")))) ∧
    (onDepStep
        ⟨[], [("k", ⟨⟨false, SelectorExpr.const Value.none⟩, Value.none, [],
          [], [], 100, false, false⟩)]⟩ "k").2.2.2 =
      Option.some (Err.runtimeError (cycleMsg [])) :=
  ⟨by decide,
    (C4_cycle_amended
        (emptySM.addSelectorOp "A" ⟨false, SelectorExpr.const (Value.int 1)⟩).1
        "A" "B" (by decide) (by decide) (by decide)).1,
    (C4_cycle_amended
        (emptySM.addSelectorOp "A" ⟨false, SelectorExpr.const (Value.int 1)⟩).1
        "A" "B" (by decide) (by decide) (by decide)).2
      ⟨[], [("k", ⟨⟨false, SelectorExpr.const Value.none⟩, Value.none, [],
        [], [], 100, false, false⟩)]⟩ "k"
      ⟨⟨false, SelectorExpr.const Value.none⟩, Value.none, [], [], [], 100,
        false, false⟩ (by decide) (by decide) (by decide)⟩

/-! ## Evaluation lemmas -/

theorem addAll_append (d r₁ r₂ : List String) :
    addAll (addAll d r₁) r₂ = addAll d (r₁ ++ r₂) := by
  simp [addAll, List.foldl_append]

theorem evalTrack_evalR (b : SelectorExpr) :
    ∀ (m : SM) (deps : List String) (cache : List (String × Value)),
      (evalTrack b m deps cache).1 = (evalR b m).1 ∧
      (evalTrack b m deps cache).2.1 = addAll deps (evalR b m).2.1 ∧
      (evalTrack b m deps cache).2.2.2 = (evalR b m).2.2 := by
  induction b with
  | const v =>
    intro m deps cache
    simp [evalTrack, evalR, addAll]
  | get k =>
    intro m deps cache
    rcases hop : m.atomOp k Value.none with ⟨m₁, err⟩
    cases err with
    | none => simp [evalTrack, evalR, hop, addAll]
    | some e => simp [evalTrack, evalR, hop, addAll]
  | ite c t e ihc iht ihe =>
    intro m deps cache
    obtain ⟨hm, hd, hr⟩ := ihc m deps cache
    rcases hc : evalR c m with ⟨m₁, r₁, res⟩
    rcases ht : evalTrack c m deps cache with ⟨m₁', deps₁, cache₁, res'⟩
    rw [hc, ht] at hm hd hr
    simp only at hm hd hr
    subst hm hd hr
    cases res' with
    | error e₁ =>
      simp [evalTrack, evalR, hc, ht]
    | ok cv =>
      by_cases htr : cv.truthy
      · obtain ⟨hm2, hd2, hr2⟩ := iht m₁' (addAll deps r₁) cache₁
        rcases hT : evalR t m₁' with ⟨m₂, r₂, res₂⟩
        rw [hT] at hm2 hd2 hr2
        simp [evalTrack, evalR, hc, ht, htr, hT, hm2, hd2, hr2,
          addAll_append]
      · obtain ⟨hm2, hd2, hr2⟩ := ihe m₁' (addAll deps r₁) cache₁
        rcases hT : evalR e m₁' with ⟨m₂, r₂, res₂⟩
        rw [hT] at hm2 hd2 hr2
        simp [evalTrack, evalR, hc, ht, htr, hT, hm2, hd2, hr2,
          addAll_append]
  | fail =>
    intro m deps cache
    simp [evalTrack, evalR, addAll]

theorem atomOp_selectors (m : SM) (k : String) (d : Value) :
    (m.atomOp k d).1.selectors = m.selectors := by
  by_cases h1 : m.hasSel k <;> by_cases h2 : m.hasAtom k <;>
    simp [SM.atomOp, h1, h2]

theorem evalR_selectors (b : SelectorExpr) :
    ∀ m : SM, (evalR b m).1.selectors = m.selectors := by
  induction b with
  | const v => intro m; simp [evalR]
  | get k =>
    intro m
    rcases hop : m.atomOp k Value.none with ⟨m₁, err⟩
    have hsel : m₁.selectors = m.selectors := by
      have := atomOp_selectors m k Value.none
      rw [hop] at this
      exact this
    cases err with
    | none => simpa [evalR, hop] using hsel
    | some e => simpa [evalR, hop] using hsel
  | ite c t e ihc iht ihe =>
    intro m
    rcases hc : evalR c m with ⟨m₁, r₁, res⟩
    have h₁ : m₁.selectors = m.selectors := by
      have := ihc m
      rw [hc] at this
      exact this
    cases res with
    | error e₁ => simpa [evalR, hc] using h₁
    | ok cv =>
      by_cases htr : cv.truthy
      · rcases hT : evalR t m₁ with ⟨m₂, r₂, res₂⟩
        have h₂ : m₂.selectors = m₁.selectors := by
          have := iht m₁
          rw [hT] at this
          exact this
        simp [evalR, hc, htr, hT, h₂, h₁]
      · rcases hT : evalR e m₁ with ⟨m₂, r₂, res₂⟩
        have h₂ : m₂.selectors = m₁.selectors := by
          have := ihe m₁
          rw [hT] at this
          exact this
        simp [evalR, hc, htr, hT, h₂, h₁]
  | fail => intro m; simp [evalR]

theorem evalTrack_selectors (b : SelectorExpr) (m : SM) (deps : List String)
    (cache : List (String × Value)) :
    (evalTrack b m deps cache).1.selectors = m.selectors := by
  rw [(evalTrack_evalR b m deps cache).1]
  exact evalR_selectors b m

theorem readDeps_selectors (ks : List String) :
    ∀ m : SM, (readDeps m ks).1.selectors = m.selectors := by
  induction ks with
  | nil => intro m; simp [readDeps]
  | cons k rest ih =>
    intro m
    rcases hop : m.atomOp k Value.none with ⟨m₁, err⟩
    have h₁ : m₁.selectors = m.selectors := by
      have := atomOp_selectors m k Value.none
      rw [hop] at this
      exact this
    cases err with
    | some e => simpa [readDeps, hop] using h₁
    | none =>
      rcases hr : readDeps m₁ rest with ⟨m₂, vs, err₂⟩
      have h₂ : m₂.selectors = m₁.selectors := by
        have := ih m₁
        rw [hr] at this
        exact this
      simp [readDeps, hop, hr, h₂, h₁]

theorem registerDepListeners_selectors (ks : List String) :
    ∀ (m : SM) (selKey : String),
      (registerDepListeners m selKey ks).selectors = m.selectors := by
  induction ks with
  | nil => intro m selKey; simp [registerDepListeners]
  | cons k rest ih =>
    intro m selKey
    simpa [registerDepListeners, SM.updAtom] using
      ih (m.updAtom k _) selKey

theorem selDeps_updSel (m : SM) (k k' : String) (f : SelectorS → SelectorS)
    (hf : ∀ s, (f s).dependencies = s.dependencies) :
    selDeps (m.updSel k f) k' = selDeps m k' := by
  unfold selDeps SM.updSel
  simp only
  rw [alookup_aupdate]
  by_cases h : k' = k
  · subst h
    cases alookup m.selectors k' with
    | none => simp
    | some s => simp [hf s]
  · simp [h]

theorem selDeps_of_selectors_eq {m m' : SM} (h : m'.selectors = m.selectors)
    (k : String) : selDeps m' k = selDeps m k := by
  unfold selDeps
  rw [h]

theorem onDepStep_selDeps (m : SM) (selKey k' : String) :
    selDeps (onDepStep m selKey).1 k' = selDeps m k' := by
  unfold onDepStep
  cases hsel : alookup m.selectors selKey with
  | none => simp
  | some s =>
    by_cases hlock : s.updateLock
    · simp [hlock]
    · simp only [hlock, Bool.false_eq_true, if_false]
      have hmL : selDeps (m.updSel selKey fun s₀ =>
          { s₀ with updateLock := true, updateDepth := s.updateDepth + 1 }) k' =
          selDeps m k' :=
        selDeps_updSel m selKey k' _ fun _ => rfl
      set mL := m.updSel selKey fun s₀ =>
        { s₀ with updateLock := true, updateDepth := s.updateDepth + 1 } with hmLdef
      have hrest : ∀ mm : SM, selDeps (mm.restoreSel selKey) k' = selDeps mm k' :=
        fun mm => selDeps_updSel mm selKey k' _ fun _ => rfl
      by_cases hd : 100 < s.updateDepth + 1
      · simp [hd, hrest, hmL]
      · simp only [hd, if_false]
        rcases hrd : readDeps mL s.dependencies with ⟨m₁, newVals, err⟩
        have hsels₁ : m₁.selectors = mL.selectors := by
          have h := readDeps_selectors s.dependencies mL
          rw [hrd] at h
          exact h
        have h₁ : selDeps m₁ k' = selDeps m k' :=
          (selDeps_of_selectors_eq hsels₁ k').trans hmL
        cases err with
        | some e => simp [hrd, hrest, h₁]
        | none =>
          by_cases hch : newVals.any fun kv =>
            match alookup s.cachedDeps kv.1 with
            | Option.none => true
            | Option.some cv => !deep_equal kv.2 cv
          · simp only [hrd, hch, Bool.not_true, Bool.false_eq_true, if_false]
            have h₂ : selDeps (m₁.updSel selKey fun s₁ =>
                { s₁ with cachedDeps := newVals }) k' = selDeps m₁ k' :=
              selDeps_updSel m₁ selKey k' _ fun _ => rfl
            set m₂ := m₁.updSel selKey fun s₁ => { s₁ with cachedDeps := newVals }
            by_cases hasync : s.fn.isAsync
            · simp [hasync, hrest, h₂, h₁]
            · simp only [hasync, Bool.false_eq_true, if_false]
              rcases hev : evalPlain s.fn.body m₂ with ⟨m₃, res⟩
              have h₃ : selDeps m₃ k' = selDeps m₂ k' := by
                refine selDeps_of_selectors_eq ?_ k'
                have := evalR_selectors s.fn.body m₂
                unfold evalPlain at hev
                rcases hR : evalR s.fn.body m₂ with ⟨mR, rR, resR⟩
                rw [hR] at hev this
                simp only at hev
                cases hev
                exact this
              cases res with
              | error e => simp [hev, hrest, h₃, h₂, h₁]
              | ok v =>
                by_cases heq : deep_equal v
                    (match alookup m₃.selectors selKey with
                      | Option.some s₁ => s₁.value
                      | Option.none => Value.none)
                · simp [hev, heq, hrest, h₃, h₂, h₁]
                · have h₄ : selDeps (m₃.updSel selKey fun s₁ =>
                      { s₁ with value := v }) k' = selDeps m₃ k' :=
                    selDeps_updSel m₃ selKey k' _ fun _ => rfl
                  simp [hev, heq, h₄, h₃, h₂, h₁]
          · simp [hrd, hch, hrest, h₁]

theorem run_selDeps (fuel : Nat) :
    ∀ (m : SM) (tasks : List Task) (k' : String),
      selDeps (run fuel m tasks).1 k' = selDeps m k' := by
  induction fuel with
  | zero => intro m tasks k'; simp [run]
  | succ fuel ih =>
    intro m tasks k'
    cases tasks with
    | nil => simp [run]
    | cons t rest =>
      cases t with
      | invoke l v =>
        cases l with
        | external i =>
          rcases hr : run fuel m rest with ⟨m', evs, err⟩
          have := ih m rest k'
          rw [hr] at this
          simpa [run, hr] using this
        | depChange k =>
          rcases hstep : onDepStep m k with ⟨m₁, evs₁, tasks₁, errStep⟩
          have h₁ : selDeps m₁ k' = selDeps m k' := by
            have := onDepStep_selDeps m k k'
            rw [hstep] at this
            exact this
          rcases hr : run fuel m₁ (tasks₁ ++ rest) with ⟨m', evs, err⟩
          have h₂ : selDeps m' k' = selDeps m₁ k' := by
            have := ih m₁ (tasks₁ ++ rest) k'
            rw [hr] at this
            exact this
          simp [run, hstep, hr, h₂, h₁]
      | onDepTop k =>
        rcases hstep : onDepStep m k with ⟨m₁, evs₁, tasks₁, errStep⟩
        have h₁ : selDeps m₁ k' = selDeps m k' := by
          have := onDepStep_selDeps m k k'
          rw [hstep] at this
          exact this
        cases errStep with
        | some e => simp [run, hstep, h₁]
        | none =>
          rcases hr : run fuel m₁ (tasks₁ ++ rest) with ⟨m', evs, err⟩
          have h₂ : selDeps m' k' = selDeps m₁ k' := by
            have := ih m₁ (tasks₁ ++ rest) k'
            rw [hr] at this
            exact this
          simp [run, hstep, hr, h₂, h₁]
      | restore k =>
        rcases hr : run fuel (m.restoreSel k) rest with ⟨m', evs, err⟩
        have h₁ : selDeps (m.restoreSel k) k' = selDeps m k' :=
          selDeps_updSel m k k' _ fun _ => rfl
        have h₂ : selDeps m' k' = selDeps (m.restoreSel k) k' := by
          have := ih (m.restoreSel k) rest k'
          rw [hr] at this
          exact this
        simp [run, hr, h₂, h₁]

theorem handleAsync_selDeps (fuel : Nat) (m : SM) (selKey : String)
    (body : SelectorExpr) (k' : String) :
    selDeps (handleAsync fuel m selKey body).1 k' = selDeps m k' := by
  unfold handleAsync
  rcases hev : evalPlain body m with ⟨m₁, res⟩
  have h₁ : selDeps m₁ k' = selDeps m k' := by
    refine selDeps_of_selectors_eq ?_ k'
    have := evalR_selectors body m
    unfold evalPlain at hev
    rcases hR : evalR body m with ⟨mR, rR, resR⟩
    rw [hR] at hev this
    simp only at hev
    cases hev
    exact this
  cases res with
  | error e => simpa [hev] using h₁
  | ok v =>
    by_cases heq : deep_equal v
        (match alookup m₁.selectors selKey with
          | Option.some s₁ => s₁.value
          | Option.none => Value.none)
    · simpa [hev, heq] using h₁
    · have h₂ : selDeps (m₁.updSel selKey fun s => { s with value := v }) k' =
          selDeps m₁ k' :=
        selDeps_updSel m₁ selKey k' _ fun _ => rfl
      rcases hr : run fuel (m₁.updSel selKey fun s => { s with value := v })
          ((match alookup m₁.selectors selKey with
            | Option.some s => s.listeners
            | Option.none => []).map fun l => Task.invoke l v) with ⟨m', evs, err⟩
      have h₃ := run_selDeps fuel
        (m₁.updSel selKey fun s => { s with value := v })
        ((match alookup m₁.selectors selKey with
          | Option.some s => s.listeners
          | Option.none => []).map fun l => Task.invoke l v) k'
      rw [hr] at h₃
      simp [hev, heq, hr, h₃, h₂, h₁]

/-! ## Claim C3 -/

/-- C3 counterexample: with atoms `a=True`, `b=1`, `c=2` and selector `f`
computed by `get("b") if get("a") else get("c")` (initial tracked reads:
`a`, `b`), the write `set("a", False)` triggers exactly one complete
synchronous recomputation, whose plain-getter evaluation reads `a` and `c`
and stores `2`; yet the tracked dependency set remains `{a, b}` — the
recomputation does not update `dependencies`, contradicting the claim that
it equals the read set of the most recent complete evaluation. -/
theorem C3_deps_not_updated_cx :
    (c3M0.setOp 10 "a" (Value.bool false)).2.1.count (Event.computeRun "f") = 1 ∧
    selDeps c3M1 "f" = Option.some ["a", "b"] ∧
    addAll [] (evalR c3Body c3M1).2.1 = ["a", "c"] ∧
    (alookup c3M1.selectors "f").map (fun s => s.value) =
      Option.some (Value.int 2) := by
  decide

/-- C3 amended: `dependencies` is exactly the set of keys read through the
tracking getter during the initial evaluation (for a synchronous selector,
at registration), and it is never updated afterwards: recomputations —
whether the synchronous `_on_dependency_change` path, any propagation of
notifications, or an async `_handle_async` completion — evaluate with a
non-tracking getter and leave every selector's dependency set unchanged. -/
theorem C3_deps_fixed_at_setup (m : SM) (key : String) (fn : SelectFn)
    (ha : m.hasAtom key = false) (hs : m.hasSel key = false)
    (hsync : fn.isAsync = false) :
    (∀ s : SelectorS,
      alookup (m.addSelectorOp key fn).1.selectors key = Option.some s →
      s.dependencies = addAll [] (evalR fn.body m).2.1) ∧
    (∀ (fuel : Nat) (mm : SM) (tasks : List Task) (k' : String),
      selDeps (run fuel mm tasks).1 k' = selDeps mm k') ∧
    (∀ (fuel : Nat) (mm : SM) (selKey : String) (body : SelectorExpr)
      (k' : String),
      selDeps (handleAsync fuel mm selKey body).1 k' = selDeps mm k') := by
  refine ⟨?_, run_selDeps, handleAsync_selDeps⟩
  intro s hlook
  have hs' : alookup m.selectors key = Option.none :=
    alookup_eq_none_of_isSome_false hs
  rcases hT : evalTrack fn.body m [] [] with ⟨m₁, deps, cache, res⟩
  obtain ⟨hTm, hTd, hTr⟩ := evalTrack_evalR fn.body m [] []
  rw [hT] at hTm hTd hTr
  simp only at hTm hTd hTr
  cases res with
  | error e =>
    rw [SM.addSelectorOp, if_neg (by simp [ha]), if_neg (by simp [hs]),
      if_neg (by simp [hsync]), hT] at hlook
    simp only at hlook
    have hm₁ : m₁.selectors = m.selectors := by
      have := evalTrack_selectors fn.body m [] []
      rw [hT] at this
      exact this
    rw [hm₁, hs'] at hlook
    cases hlook
  | ok v =>
    rw [SM.addSelectorOp, if_neg (by simp [ha]), if_neg (by simp [hs]),
      if_neg (by simp [hsync]), hT] at hlook
    simp only at hlook
    have hm₁ : m₁.selectors = m.selectors := by
      have := evalTrack_selectors fn.body m [] []
      rw [hT] at this
      exact this
    have hreg : (registerDepListeners m₁ key deps).selectors = m.selectors := by
      rw [registerDepListeners_selectors deps m₁ key, hm₁]
    rw [alookup_append, hreg, hs'] at hlook
    simp [alookup] at hlook
    rw [← hlook, ← hTd]

/-- Witness for the amended C3: registering the scenario selector on the
scenario atoms yields exactly the dependency set read during the initial
evaluation. -/
theorem C3_deps_fixed_at_setup_witness :
    ((((emptySM.atomOp "a" (Value.bool true)).1.atomOp "b"
        (Value.int 1)).1.atomOp "c" (Value.int 2)).1.hasAtom "f" = false ∧
      (((emptySM.atomOp "a" (Value.bool true)).1.atomOp "b"
        (Value.int 1)).1.atomOp "c" (Value.int 2)).1.hasSel "f" = false) ∧
    (∀ s : SelectorS,
      alookup c3M0.selectors "f" = Option.some s →
      s.dependencies = addAll []
        (evalR c3Body
          (((emptySM.atomOp "a" (Value.bool true)).1.atomOp "b"
            (Value.int 1)).1.atomOp "c" (Value.int 2)).1).2.1) :=
  ⟨⟨by decide, by decide⟩,
    (C3_deps_fixed_at_setup
        (((emptySM.atomOp "a" (Value.bool true)).1.atomOp "b"
          (Value.int 1)).1.atomOp "c" (Value.int 2)).1
        "f" ⟨false, c3Body⟩ (by decide) (by decide) (by decide)).1⟩

theorem evalPlain_selectors (b : SelectorExpr) (m : SM) :
    (evalPlain b m).1.selectors = m.selectors := by
  unfold evalPlain
  rcases hR : evalR b m with ⟨m₁, r₁, res⟩
  have h := evalR_selectors b m
  rw [hR] at h
  exact h

/-! ## Claim C9 -/

/-- C9: when awaiting a selector's asynchronous recomputation result raises,
`_handle_async` catches the exception and reports it: the selector's stored
value (indeed the whole selector registry) is unchanged, no listener of the
selector is notified (the only emitted event is the error report), and the
handler returns normally — by construction it has no error channel, exactly
because the source wraps the await in `try/except Exception`, so the
notification chain of the triggering dependency write is not aborted. -/
theorem C9_async_failure_recovered (fuel : Nat) (m : SM) (selKey : String)
    (body : SelectorExpr) (e : Err)
    (herr : (evalPlain body m).2 = Except.error e) :
    handleAsync fuel m selKey body =
      ((evalPlain body m).1, [Event.report "[Selector async error]"]) ∧
    (handleAsync fuel m selKey body).1.selectors = m.selectors := by
  rcases hev : evalPlain body m with ⟨m₁, res⟩
  rw [hev] at herr
  simp only at herr
  subst herr
  have hsels : m₁.selectors = m.selectors := by
    have h := evalPlain_selectors body m
    rw [hev] at h
    exact h
  constructor
  · simp [handleAsync, hev]
  · simp [handleAsync, hev, hsels]

/-- Witness for C9: a concrete async selector body that raises when
awaited. -/
theorem C9_async_failure_recovered_witness :
    (evalPlain SelectorExpr.fail emptySM).2 =
      Except.error (Err.runtimeError "selector function raised") ∧
    handleAsync 5 emptySM "s" SelectorExpr.fail =
      ((evalPlain SelectorExpr.fail emptySM).1,
        [Event.report "[Selector async error]"]) :=
  ⟨rfl,
    (C9_async_failure_recovered 5 emptySM "s" SelectorExpr.fail
        (Err.runtimeError "selector function raised") rfl).1⟩

theorem readDeps_all_present (ks : List String) :
    ∀ m : SM, (∀ k ∈ ks, m.hasAtom k = true ∧ m.hasSel k = false) →
      readDeps m ks = (m, ks.map (fun k => (k, m.atomVal k)), Option.none) := by
  induction ks with
  | nil => intro m _; simp [readDeps]
  | cons k rest ih =>
    intro m h
    obtain ⟨h1, h2⟩ := h k (List.mem_cons_self k rest)
    have hop : m.atomOp k Value.none = (m, Option.none) := by
      simp [SM.atomOp, h1, h2]
    have hr := ih m fun x hx => h x (List.mem_cons_of_mem k hx)
    simp [readDeps, hop, hr]

theorem alookup_updSel (m : SM) (k k' : String) (f : SelectorS → SelectorS) :
    alookup (m.updSel k f).selectors k' =
      if k' = k then (alookup m.selectors k).map f
      else alookup m.selectors k' := by
  unfold SM.updSel
  simp only
  exact alookup_aupdate m.selectors k k' f

theorem aupdate_lock_restore (l : List (String × SelectorS)) (k : String)
    (s : SelectorS) (hsel : alookup l k = Option.some s)
    (hlock : s.updateLock = false) :
    aupdate (aupdate l k (fun s₀ => { s₀ with updateLock := true, updateDepth := s.updateDepth + 1 })) k
      (fun s₁ => { s₁ with updateDepth := s₁.updateDepth - 1, updateLock := false }) = l := by
  induction l with
  | nil => simp [alookup] at hsel
  | cons p rest ih =>
    rcases p with ⟨pk, pv⟩
    by_cases hk : pk = k
    · subst hk
      rw [alookup, if_pos rfl] at hsel
      cases hsel
      rcases s with ⟨fn, value, ls, deps, cache, depth, lock, isUpd⟩
      simp only at hlock
      subst hlock
      simp [aupdate]
    · rw [alookup, if_neg hk] at hsel
      simp [aupdate, hk, ih hsel]

theorem lockUnlock_id (m : SM) (selKey : String) (s : SelectorS)
    (hsel : alookup m.selectors selKey = Option.some s)
    (hlock : s.updateLock = false) :
    ((m.updSel selKey fun s₀ => { s₀ with updateLock := true, updateDepth := s.updateDepth + 1 }).restoreSel selKey) = m := by
  unfold SM.restoreSel SM.updSel
  simp only
  rw [aupdate_lock_restore m.selectors selKey s hsel hlock]

/-! ## Claim C1 -/

/-- C1: for every selector and every dependency-change notification arriving
in a quiescent state (lock free, depth 0, every tracked dependency a
registered atom): if for every tracked key the oracle reports the current
value unchanged against the `_cached_deps` snapshot, the handler returns
with the manager bit-identical, no compute run, no event and no pending
notification (memoisation hit); and if at least one tracked dependency is
changed (or missing from the snapshot), the compute function is invoked
exactly once and the snapshot is replaced by the freshly read dependency
values — on every exit path of the handler, including a raising or
asynchronous compute, so the snapshot update precedes the compute call. -/
theorem updSel_atoms (m : SM) (k : String) (f : SelectorS → SelectorS) :
    (m.updSel k f).atoms = m.atoms := rfl

theorem atomVal_updSel (m : SM) (k : String) (f : SelectorS → SelectorS)
    (k' : String) : (m.updSel k f).atomVal k' = m.atomVal k' := rfl

theorem C1_memoized_recompute (m : SM) (selKey : String) (s : SelectorS)
    (hsel : alookup m.selectors selKey = Option.some s)
    (hlock : s.updateLock = false) (hdepth : s.updateDepth = 0)
    (hdeps : ∀ k ∈ s.dependencies, m.hasAtom k = true ∧ m.hasSel k = false) :
    ((∀ k ∈ s.dependencies, depChanged m s k = false) →
      onDepStep m selKey = (m, [], [], Option.none)) ∧
    ((∃ k ∈ s.dependencies, depChanged m s k = true) →
      (onDepStep m selKey).2.1.count (Event.computeRun selKey) = 1 ∧
      (alookup (onDepStep m selKey).1.selectors selKey).map
          (fun s' => s'.cachedDeps) =
        Option.some (s.dependencies.map fun k => (k, m.atomVal k))) := by
  have hdL : ¬ (100 < s.updateDepth + 1) := by omega
  have hdepsL : ∀ k ∈ s.dependencies,
      (m.updSel selKey fun s₀ =>
        { s₀ with updateLock := true, updateDepth := s.updateDepth + 1 }).hasAtom k = true ∧
      (m.updSel selKey fun s₀ =>
        { s₀ with updateLock := true, updateDepth := s.updateDepth + 1 }).hasSel k = false := by
    intro k hk
    obtain ⟨h1, h2⟩ := hdeps k hk
    have hne : ¬ k = selKey := by
      intro hc
      subst hc
      rw [SM.hasSel, hsel] at h2
      simp at h2
    refine ⟨h1, ?_⟩
    rw [SM.hasSel, alookup_updSel, if_neg hne]
    exact h2
  have hread := readDeps_all_present s.dependencies _ hdepsL
  have hchg_map : ∀ ks : List String,
      ((ks.map fun k => (k, m.atomVal k)).any fun kv =>
        match alookup s.cachedDeps kv.1 with
        | Option.none => true
        | Option.some cv => !deep_equal kv.2 cv) =
      ks.any fun k => depChanged m s k := by
    intro ks
    induction ks with
    | nil => rfl
    | cons k rest ih =>
      simp only [List.map_cons, List.any_cons, ih]
      rfl
  constructor
  · intro hall
    have hany : (s.dependencies.any fun k => depChanged m s k) = false := by
      rw [List.any_eq_false]
      intro k hk
      simp [hall k hk]
    unfold onDepStep
    rw [hsel]
    simp only [hlock, Bool.false_eq_true, if_false, hdL, ite_false, hread]
    simp only [atomVal_updSel]
    rw [hchg_map s.dependencies, hany]
    simp only [Bool.not_false, if_true]
    exact congrArg (fun x => (x, ([] : List Event), ([] : List Task),
      (Option.none : Option Err))) (lockUnlock_id m selKey s hsel hlock)
  · intro hchg
    have hany : (s.dependencies.any fun k => depChanged m s k) = true := by
      rw [List.any_eq_true]
      obtain ⟨k, hk, hc⟩ := hchg
      exact ⟨k, hk, hc⟩
    have hlook₂ : alookup ((m.updSel selKey fun s₀ => { s₀ with updateLock := true, updateDepth := s.updateDepth + 1 }).updSel selKey fun s₁ => { s₁ with cachedDeps := s.dependencies.map fun k => (k, m.atomVal k) }).selectors selKey =
        Option.some { ({ s with updateLock := true, updateDepth := s.updateDepth + 1 }) with cachedDeps := s.dependencies.map fun k => (k, m.atomVal k) } := by
      rw [alookup_updSel, if_pos rfl, alookup_updSel, if_pos rfl, hsel]
      rfl
    unfold onDepStep
    rw [hsel]
    simp only [hlock, Bool.false_eq_true, if_false, hdL, ite_false, hread]
    simp only [atomVal_updSel]
    rw [hchg_map s.dependencies, hany]
    simp only [Bool.not_true, Bool.false_eq_true, if_false]
    cases hasync : s.fn.isAsync with
    | true =>
      simp only [if_true]
      constructor
      · simp [List.count_cons]
      · rw [SM.restoreSel, alookup_updSel, if_pos rfl, hlook₂]
        rfl
    | false =>
      simp only [Bool.false_eq_true, if_false]
      rcases hev : evalPlain s.fn.body ((m.updSel selKey fun s₀ => { s₀ with updateLock := true, updateDepth := s.updateDepth + 1 }).updSel selKey fun s₁ => { s₁ with cachedDeps := s.dependencies.map fun k => (k, m.atomVal k) }) with ⟨m₃, res⟩
      have hsels₃ : m₃.selectors = ((m.updSel selKey fun s₀ => { s₀ with updateLock := true, updateDepth := s.updateDepth + 1 }).updSel selKey fun s₁ => { s₁ with cachedDeps := s.dependencies.map fun k => (k, m.atomVal k) }).selectors := by
        have h := evalPlain_selectors s.fn.body
          ((m.updSel selKey fun s₀ => { s₀ with updateLock := true, updateDepth := s.updateDepth + 1 }).updSel selKey fun s₁ => { s₁ with cachedDeps := s.dependencies.map fun k => (k, m.atomVal k) })
        rw [hev] at h
        exact h
      have hlook₃ : alookup m₃.selectors selKey =
          Option.some { ({ s with updateLock := true, updateDepth := s.updateDepth + 1 }) with cachedDeps := s.dependencies.map fun k => (k, m.atomVal k) } := by
        rw [hsels₃]
        exact hlook₂
      cases res with
      | error e =>
        simp only [hev]
        constructor
        · simp [List.count_cons]
        · rw [SM.restoreSel, alookup_updSel, if_pos rfl, hlook₃]
          rfl
      | ok v =>
        simp only [hev, hlook₃]
        by_cases heq : deep_equal v s.value
        · have : deep_equal v ({ ({ s with updateLock := true, updateDepth := s.updateDepth + 1 }) with cachedDeps := s.dependencies.map fun k => (k, m.atomVal k) } : SelectorS).value = true := heq
          rw [if_pos this]
          constructor
          · simp [List.count_cons]
          · rw [SM.restoreSel, alookup_updSel, if_pos rfl, hlook₃]
            rfl
        · have : ¬ deep_equal v ({ ({ s with updateLock := true, updateDepth := s.updateDepth + 1 }) with cachedDeps := s.dependencies.map fun k => (k, m.atomVal k) } : SelectorS).value = true := heq
          rw [if_neg this]
          constructor
          · simp [List.count_cons]
          · rw [alookup_updSel, if_pos rfl, hlook₃]
            rfl

/-- Witness for C1: on the scenario registry (atoms `a=True`, `b=1`, `c=2`,
selector `f`), an unchanged-dependency notification is skipped with the
manager bit-identical, and after writing `a := False` into the atom, a
notification runs exactly one compute and refreshes the snapshot. -/
theorem C1_memoized_recompute_witness :
    (alookup c3M0.selectors "f" =
        Option.some ⟨⟨false, c3Body⟩, Value.int 1, [], ["a", "b"],
          [("a", Value.bool true), ("b", Value.int 1)], 0, false, false⟩ ∧
      (∀ k ∈ ["a", "b"],
        c3M0.hasAtom k = true ∧ c3M0.hasSel k = false)) ∧
    onDepStep c3M0 "f" = (c3M0, [], [], Option.none) ∧
    ((onDepStep (c3M0.updAtom "a" fun a₀ => { a₀ with value := Value.bool false })
        "f").2.1.count (Event.computeRun "f") = 1 ∧
      (alookup (onDepStep
          (c3M0.updAtom "a" fun a₀ => { a₀ with value := Value.bool false })
          "f").1.selectors "f").map (fun s' => s'.cachedDeps) =
        Option.some [("a", Value.bool false), ("b", Value.int 1)]) :=
  ⟨⟨by decide, by decide⟩,
    (C1_memoized_recompute c3M0 "f"
        ⟨⟨false, c3Body⟩, Value.int 1, [], ["a", "b"],
          [("a", Value.bool true), ("b", Value.int 1)], 0, false, false⟩
        (by decide) (by decide) (by decide) (by decide)).1 (by decide),
    (C1_memoized_recompute
        (c3M0.updAtom "a" fun a₀ => { a₀ with value := Value.bool false }) "f"
        ⟨⟨false, c3Body⟩, Value.int 1, [], ["a", "b"],
          [("a", Value.bool true), ("b", Value.int 1)], 0, false, false⟩
        (by decide) (by decide) (by decide) (by decide)).2 (by decide)⟩

/-! ## Registry-disjointness machinery (claim C7) -/

theorem alookup_mem {α : Type} (l : List (String × α)) (k : String) (v : α)
    (h : alookup l k = Option.some v) : (k, v) ∈ l := by
  induction l with
  | nil => simp [alookup] at h
  | cons p rest ih =>
    rcases p with ⟨pk, pv⟩
    by_cases hk : pk = k
    · subst hk
      rw [alookup, if_pos rfl] at h
      cases h
      exact List.mem_cons_self _ _
    · rw [alookup, if_neg hk] at h
      exact List.mem_cons_of_mem _ (ih h)

theorem mem_alookup_isSome {α : Type} (l : List (String × α)) (p : String × α)
    (h : p ∈ l) : (alookup l p.1).isSome = true := by
  induction l with
  | nil => simp at h
  | cons q rest ih =>
    rcases q with ⟨qk, qv⟩
    rw [List.mem_cons] at h
    rcases h with h | h
    · subst h
      simp [alookup]
    · by_cases hk : qk = p.1
      · simp [alookup, hk]
      · simpa [alookup, hk] using ih h

theorem aerase_subset {α : Type} (l : List (String × α)) (k : String)
    (p : String × α) (h : p ∈ aerase l k) : p ∈ l := by
  induction l with
  | nil => simp [aerase] at h
  | cons q rest ih =>
    rcases q with ⟨qk, qv⟩
    by_cases hk : qk = k
    · rw [aerase, if_pos hk] at h
      exact List.mem_cons_of_mem _ h
    · rw [aerase, if_neg hk] at h
      rw [List.mem_cons] at h
      rcases h with h | h
      · subst h; exact List.mem_cons_self _ _
      · exact List.mem_cons_of_mem _ (ih h)

theorem disjoint_iff (m : SM) :
    m.Disjoint ↔ ∀ k, m.hasAtom k = true → m.hasSel k = false := by
  constructor
  · intro h k hk
    rw [SM.hasAtom] at hk
    cases ha : alookup m.atoms k with
    | none => rw [ha] at hk; simp at hk
    | some a => exact h (k, a) (alookup_mem m.atoms k a ha)
  · intro h p hp
    exact h p.1 (mem_alookup_isSome m.atoms p hp)

theorem preserves_refl (m : SM) : Preserves m m :=
  ⟨fun _ => rfl, fun _ h => Or.inl h⟩

theorem preserves_trans {m m₁ m₂ : SM} (h₁ : Preserves m m₁)
    (h₂ : Preserves m₁ m₂) : Preserves m m₂ := by
  refine ⟨fun k => (h₂.1 k).trans (h₁.1 k), fun k hk => ?_⟩
  rcases h₂.2 k hk with h | h
  · exact h₁.2 k h
  · rw [h₁.1 k] at h
    exact Or.inr h

theorem preserves_disjoint {m m' : SM} (hp : Preserves m m')
    (hd : m.Disjoint) : m'.Disjoint := by
  rw [disjoint_iff] at hd ⊢
  intro k hk
  rw [hp.1 k]
  rcases hp.2 k hk with h | h
  · exact hd k h
  · exact h

theorem preserves_updAtom (m : SM) (k : String) (f : AtomS → AtomS) :
    Preserves m (m.updAtom k f) := by
  constructor
  · intro k'; rfl
  · intro k' hk'
    refine Or.inl ?_
    rw [SM.hasAtom] at hk' ⊢
    rw [SM.updAtom] at hk'
    simp only at hk'
    rw [alookup_aupdate] at hk'
    by_cases h : k' = k
    · subst h
      rw [if_pos rfl] at hk'
      simpa [Option.isSome_map] using hk'
    · rwa [if_neg h] at hk'

theorem preserves_updSel (m : SM) (k : String) (f : SelectorS → SelectorS) :
    Preserves m (m.updSel k f) := by
  constructor
  · intro k'
    rw [SM.hasSel, SM.hasSel, alookup_updSel]
    by_cases h : k' = k
    · subst h
      rw [if_pos rfl]
      simp [Option.isSome_map]
    · rw [if_neg h]
  · intro k' hk'
    exact Or.inl hk'

theorem preserves_restoreSel (m : SM) (k : String) :
    Preserves m (m.restoreSel k) :=
  preserves_updSel m k _

theorem preserves_atomOp (m : SM) (k : String) (d : Value) :
    Preserves m (m.atomOp k d).1 := by
  by_cases h1 : m.hasSel k
  · simp only [SM.atomOp, h1, if_true]
    exact preserves_refl m
  · by_cases h2 : m.hasAtom k
    · simp only [SM.atomOp, h1, Bool.false_eq_true, if_false, h2, if_true]
      exact preserves_refl m
    · simp only [SM.atomOp, h1, Bool.false_eq_true, if_false, h2]
      constructor
      · intro k'; rfl
      · intro k' hk'
        rw [SM.hasAtom] at hk'
        simp only at hk'
        rw [alookup_append] at hk'
        cases ha : alookup m.atoms k' with
        | some a => exact Or.inl (by rw [SM.hasAtom, ha]; rfl)
        | none =>
          rw [ha] at hk'
          simp only at hk'
          by_cases hkk : k = k'
          · subst hkk
            simp at h1
            exact Or.inr h1
          · rw [alookup, if_neg hkk] at hk'
            simp [alookup] at hk'

theorem atomOp_newAtoms (m : SM) (k : String) (d : Value) (k' : String)
    (h : (m.atomOp k d).1.hasAtom k' = true) :
    m.hasAtom k' = true ∨ k' = k := by
  by_cases h1 : m.hasSel k
  · rw [SM.atomOp, if_pos h1] at h
    exact Or.inl h
  · by_cases h2 : m.hasAtom k
    · rw [SM.atomOp, if_neg (by simp [h1]), if_pos h2] at h
      exact Or.inl h
    · rw [SM.atomOp, if_neg (by simp [h1]), if_neg (by simp [h2])] at h
      rw [SM.hasAtom] at h
      simp only at h
      rw [alookup_append] at h
      cases ha : alookup m.atoms k' with
      | some a => exact Or.inl (by rw [SM.hasAtom, ha]; rfl)
      | none =>
        rw [ha] at h
        simp only at h
        by_cases hkk : k = k'
        · exact Or.inr hkk.symm
        · rw [alookup, if_neg hkk] at h
          simp [alookup] at h

theorem preserves_evalR (b : SelectorExpr) :
    ∀ m : SM, Preserves m (evalR b m).1 := by
  induction b with
  | const v => intro m; exact preserves_refl m
  | get k =>
    intro m
    rcases hop : m.atomOp k Value.none with ⟨m₁, err⟩
    have hp := preserves_atomOp m k Value.none
    rw [hop] at hp
    cases err with
    | none => simpa [evalR, hop] using hp
    | some e => simpa [evalR, hop] using hp
  | ite c t e ihc iht ihe =>
    intro m
    rcases hc : evalR c m with ⟨m₁, r₁, res⟩
    have h₁ := ihc m
    rw [hc] at h₁
    cases res with
    | error e₁ => simpa [evalR, hc] using h₁
    | ok cv =>
      by_cases htr : cv.truthy
      · rcases hT : evalR t m₁ with ⟨m₂, r₂, res₂⟩
        have h₂ := iht m₁
        rw [hT] at h₂
        simpa [evalR, hc, htr, hT] using preserves_trans h₁ h₂
      · rcases hT : evalR e m₁ with ⟨m₂, r₂, res₂⟩
        have h₂ := ihe m₁
        rw [hT] at h₂
        simpa [evalR, hc, htr, hT] using preserves_trans h₁ h₂
  | fail => intro m; exact preserves_refl m

theorem preserves_evalPlain (b : SelectorExpr) (m : SM) :
    Preserves m (evalPlain b m).1 := by
  unfold evalPlain
  rcases hR : evalR b m with ⟨m₁, r₁, res⟩
  have h := preserves_evalR b m
  rw [hR] at h
  exact h

theorem preserves_evalTrack (b : SelectorExpr) (m : SM) (deps : List String)
    (cache : List (String × Value)) :
    Preserves m (evalTrack b m deps cache).1 := by
  rw [(evalTrack_evalR b m deps cache).1]
  exact preserves_evalR b m

theorem mem_addAll_left (r : List String) :
    ∀ (d : List String) (x : String), x ∈ d → x ∈ addAll d r := by
  induction r with
  | nil => intro d x h; exact h
  | cons k rest ih =>
    intro d x h
    rw [addAll, List.foldl_cons]
    refine ih _ x ?_
    by_cases hk : k ∈ d
    · simpa [hk] using h
    · simp [hk]
      exact Or.inl h

theorem mem_addAll_right (r : List String) :
    ∀ (d : List String) (x : String), x ∈ r → x ∈ addAll d r := by
  induction r with
  | nil => intro d x h; simp at h
  | cons k rest ih =>
    intro d x h
    rw [List.mem_cons] at h
    rw [addAll, List.foldl_cons]
    rcases h with h | h
    · subst h
      refine mem_addAll_left rest _ x ?_
      by_cases hk : x ∈ d
      · simp [hk]
      · simp [hk]
    · exact ih _ x h

theorem evalR_newAtoms (b : SelectorExpr) :
    ∀ (m : SM) (k' : String), (evalR b m).1.hasAtom k' = true →
      m.hasAtom k' = true ∨ k' ∈ (evalR b m).2.1 := by
  induction b with
  | const v => intro m k' h; exact Or.inl h
  | get k =>
    intro m k' h
    rcases hop : m.atomOp k Value.none with ⟨m₁, err⟩
    have hnew := atomOp_newAtoms m k Value.none k'
    rw [hop] at hnew
    cases err with
    | none =>
      rw [evalR, hop] at h ⊢
      simp only at h ⊢
      rcases hnew h with hl | hr
      · exact Or.inl hl
      · exact Or.inr (by simp [hr])
    | some e =>
      rw [evalR, hop] at h ⊢
      simp only at h ⊢
      rcases hnew h with hl | hr
      · exact Or.inl hl
      · exact Or.inr (by simp [hr])
  | ite c t e ihc iht ihe =>
    intro m k' h
    rcases hc : evalR c m with ⟨m₁, r₁, res⟩
    have h₁ := ihc m k'
    rw [hc] at h₁
    cases res with
    | error e₁ =>
      rw [evalR, hc] at h ⊢
      simp only at h ⊢
      rcases h₁ h with hl | hr
      · exact Or.inl hl
      · exact Or.inr hr
    | ok cv =>
      by_cases htr : cv.truthy
      · rcases hT : evalR t m₁ with ⟨m₂, r₂, res₂⟩
        have h₂ := iht m₁ k'
        rw [hT] at h₂
        rw [evalR, hc] at h ⊢
        simp only [htr, if_true, hT] at h ⊢
        rcases h₂ h with hl | hr
        · rcases h₁ hl with hll | hlr
          · exact Or.inl hll
          · exact Or.inr (List.mem_append_left _ hlr)
        · exact Or.inr (List.mem_append_right _ hr)
      · rcases hT : evalR e m₁ with ⟨m₂, r₂, res₂⟩
        have h₂ := ihe m₁ k'
        rw [hT] at h₂
        rw [evalR, hc] at h ⊢
        simp only [htr, Bool.false_eq_true, if_false, hT] at h ⊢
        rcases h₂ h with hl | hr
        · rcases h₁ hl with hll | hlr
          · exact Or.inl hll
          · exact Or.inr (List.mem_append_left _ hlr)
        · exact Or.inr (List.mem_append_right _ hr)
  | fail => intro m k' h; exact Or.inl h

theorem evalTrack_newAtoms (b : SelectorExpr) (m : SM) (deps : List String)
    (cache : List (String × Value)) (k' : String)
    (h : (evalTrack b m deps cache).1.hasAtom k' = true) :
    m.hasAtom k' = true ∨ k' ∈ (evalTrack b m deps cache).2.1 := by
  rw [(evalTrack_evalR b m deps cache).1] at h
  rcases evalR_newAtoms b m k' h with hl | hr
  · exact Or.inl hl
  · refine Or.inr ?_
    rw [(evalTrack_evalR b m deps cache).2.1]
    exact mem_addAll_right _ deps k' hr

theorem preserves_readDeps (ks : List String) :
    ∀ m : SM, Preserves m (readDeps m ks).1 := by
  induction ks with
  | nil => intro m; exact preserves_refl m
  | cons k rest ih =>
    intro m
    rcases hop : m.atomOp k Value.none with ⟨m₁, err⟩
    have h₁ := preserves_atomOp m k Value.none
    rw [hop] at h₁
    cases err with
    | some e => simpa [readDeps, hop] using h₁
    | none =>
      rcases hr : readDeps m₁ rest with ⟨m₂, vs, err₂⟩
      have h₂ := ih m₁
      rw [hr] at h₂
      simpa [readDeps, hop, hr] using preserves_trans h₁ h₂

theorem preserves_onDepStep (m : SM) (selKey : String) :
    Preserves m (onDepStep m selKey).1 := by
  unfold onDepStep
  cases hsel : alookup m.selectors selKey with
  | none => exact preserves_refl m
  | some s =>
    by_cases hlock : s.updateLock
    · simp only [hlock, if_true]
      exact preserves_refl m
    · simp only [hlock, Bool.false_eq_true, if_false]
      have hmL : Preserves m (m.updSel selKey fun s₀ => { s₀ with updateLock := true, updateDepth := s.updateDepth + 1 }) :=
        preserves_updSel m selKey _
      by_cases hd : 100 < s.updateDepth + 1
      · simp only [hd, if_true]
        exact preserves_trans hmL (preserves_restoreSel _ selKey)
      · simp only [hd, if_false]
        rcases hrd : readDeps (m.updSel selKey fun s₀ => { s₀ with updateLock := true, updateDepth := s.updateDepth + 1 }) s.dependencies
          with ⟨m₁, newVals, err⟩
        have hrdP := preserves_readDeps s.dependencies
          (m.updSel selKey fun s₀ => { s₀ with updateLock := true, updateDepth := s.updateDepth + 1 })
        rw [hrd] at hrdP
        have h₁ : Preserves m m₁ := preserves_trans hmL hrdP
        cases err with
        | some e =>
          simp only [hrd]
          exact preserves_trans h₁ (preserves_restoreSel m₁ selKey)
        | none =>
          by_cases hch : newVals.any fun kv =>
            match alookup s.cachedDeps kv.1 with
            | Option.none => true
            | Option.some cv => !deep_equal kv.2 cv
          · simp only [hrd, hch, Bool.not_true, Bool.false_eq_true, if_false]
            have h₂ : Preserves m (m₁.updSel selKey fun s₁ => { s₁ with cachedDeps := newVals }) :=
              preserves_trans h₁ (preserves_updSel m₁ selKey _)
            by_cases hasync : s.fn.isAsync
            · simp only [hasync, if_true]
              exact preserves_trans h₂ (preserves_restoreSel _ selKey)
            · simp only [hasync, Bool.false_eq_true, if_false]
              rcases hev : evalPlain s.fn.body (m₁.updSel selKey fun s₁ => { s₁ with cachedDeps := newVals })
                with ⟨m₃, res⟩
              have hevP := preserves_evalPlain s.fn.body
                (m₁.updSel selKey fun s₁ => { s₁ with cachedDeps := newVals })
              rw [hev] at hevP
              have h₃ : Preserves m m₃ := preserves_trans h₂ hevP
              cases res with
              | error e =>
                simp only [hev]
                exact preserves_trans h₃ (preserves_restoreSel m₃ selKey)
              | ok v =>
                simp only [hev]
                by_cases heq : deep_equal v
                    (match alookup m₃.selectors selKey with
                      | Option.some s₁ => s₁.value
                      | Option.none => Value.none)
                · simp only [heq, if_true]
                  exact preserves_trans h₃ (preserves_restoreSel m₃ selKey)
                · simp only [heq, Bool.false_eq_true, if_false]
                  exact preserves_trans h₃ (preserves_updSel m₃ selKey _)
          · simp only [hrd, hch, Bool.not_false, if_true]
            exact preserves_trans h₁ (preserves_restoreSel m₁ selKey)

theorem preserves_run (fuel : Nat) :
    ∀ (m : SM) (tasks : List Task), Preserves m (run fuel m tasks).1 := by
  induction fuel with
  | zero => intro m tasks; exact preserves_refl m
  | succ fuel ih =>
    intro m tasks
    cases tasks with
    | nil => exact preserves_refl m
    | cons t rest =>
      cases t with
      | invoke l v =>
        cases l with
        | external i =>
          rcases hr : run fuel m rest with ⟨m', evs, err⟩
          have h := ih m rest
          rw [hr] at h
          simpa [run, hr] using h
        | depChange k =>
          rcases hstep : onDepStep m k with ⟨m₁, evs₁, tasks₁, errStep⟩
          have h₁ := preserves_onDepStep m k
          rw [hstep] at h₁
          rcases hr : run fuel m₁ (tasks₁ ++ rest) with ⟨m', evs, err⟩
          have h₂ := ih m₁ (tasks₁ ++ rest)
          rw [hr] at h₂
          simpa [run, hstep, hr] using preserves_trans h₁ h₂
      | onDepTop k =>
        rcases hstep : onDepStep m k with ⟨m₁, evs₁, tasks₁, errStep⟩
        have h₁ := preserves_onDepStep m k
        rw [hstep] at h₁
        cases errStep with
        | some e => simpa [run, hstep] using h₁
        | none =>
          rcases hr : run fuel m₁ (tasks₁ ++ rest) with ⟨m', evs, err⟩
          have h₂ := ih m₁ (tasks₁ ++ rest)
          rw [hr] at h₂
          simpa [run, hstep, hr] using preserves_trans h₁ h₂
      | restore k =>
        rcases hr : run fuel (m.restoreSel k) rest with ⟨m', evs, err⟩
        have h₂ := ih (m.restoreSel k) rest
        rw [hr] at h₂
        simpa [run, hr] using
          preserves_trans (preserves_restoreSel m k) h₂

theorem preserves_atomSetValue (fuel : Nat) (m : SM) (key : String)
    (v : Value) : Preserves m (atomSetValue fuel m key v).1 := by
  unfold atomSetValue
  cases ha : alookup m.atoms key with
  | none => exact preserves_refl m
  | some a =>
    by_cases heq : deep_equal a.value v
    · simp only [heq, if_true]
      exact preserves_refl m
    · simp only [heq, Bool.false_eq_true, if_false]
      rcases hr : run fuel (m.updAtom key fun a₀ => { a₀ with value := v })
          (a.listeners.map fun l => Task.invoke l v) with ⟨m', evs, err⟩
      have h₂ := preserves_run fuel (m.updAtom key fun a₀ => { a₀ with value := v })
        (a.listeners.map fun l => Task.invoke l v)
      rw [hr] at h₂
      simpa using preserves_trans (preserves_updAtom m key _) h₂

theorem preserves_setOp (fuel : Nat) (m : SM) (key : String) (v : Value) :
    Preserves m (m.setOp fuel key v).1 := by
  unfold SM.setOp
  rcases hop : m.atomOp key Value.none with ⟨m₁, err⟩
  have h₁ := preserves_atomOp m key Value.none
  rw [hop] at h₁
  cases err with
  | some e => exact h₁
  | none =>
    rcases hs : atomSetValue fuel m₁ key v with ⟨m', evs⟩
    have h₂ := preserves_atomSetValue fuel m₁ key v
    rw [hs] at h₂
    simpa [hs] using preserves_trans h₁ h₂

theorem preserves_getOp (m : SM) (key : String) :
    Preserves m (m.getOp key).1 := by
  unfold SM.getOp
  cases hsel : alookup m.selectors key with
  | some s => exact preserves_refl m
  | none =>
    rcases hop : m.atomOp key Value.none with ⟨m₁, err⟩
    have h₁ := preserves_atomOp m key Value.none
    rw [hop] at h₁
    cases err with
    | some e => exact h₁
    | none => exact h₁

theorem preserves_listenOp (fuel : Nat) (m : SM) (key : String) (l : Listener)
    (immediate : Bool) : Preserves m (m.listenOp fuel key l immediate).1 := by
  unfold SM.listenOp
  cases hsel : alookup m.selectors key with
  | some s =>
    by_cases hmem : l ∈ s.listeners
    · simp only [hmem, if_true]
      exact preserves_refl m
    · simp only [hmem, if_false]
      cases immediate with
      | false =>
        simp only [Bool.false_eq_true, if_false]
        exact preserves_updSel m key _
      | true =>
        simp only [if_true]
        rcases hr : run fuel (m.updSel key fun s₀ => { s₀ with listeners := s₀.listeners ++ [l] })
            [Task.invoke l s.value] with ⟨m', evs, err⟩
        have h₂ := preserves_run fuel
          (m.updSel key fun s₀ => { s₀ with listeners := s₀.listeners ++ [l] })
          [Task.invoke l s.value]
        rw [hr] at h₂
        simpa using preserves_trans (preserves_updSel m key _) h₂
  | none =>
    rcases hop : m.atomOp key Value.none with ⟨m₁, err⟩
    have h₁ := preserves_atomOp m key Value.none
    rw [hop] at h₁
    cases err with
    | some e => simpa [hop] using h₁
    | none =>
      simp only [hop]
      cases ha : alookup m₁.atoms key with
      | none => simpa using h₁
      | some a =>
        by_cases hmem : l ∈ a.listeners
        · simp only [hmem, if_true]
          simpa using h₁
        · simp only [hmem, if_false]
          cases immediate with
          | false =>
            simp only [Bool.false_eq_true, if_false]
            exact preserves_trans h₁ (preserves_updAtom m₁ key _)
          | true =>
            simp only [if_true]
            rcases hr : run fuel (m₁.updAtom key fun a₀ => { a₀ with listeners := a₀.listeners ++ [l] })
                [Task.invoke l a.value] with ⟨m', evs, err⟩
            have h₂ := preserves_run fuel
              (m₁.updAtom key fun a₀ => { a₀ with listeners := a₀.listeners ++ [l] })
              [Task.invoke l a.value]
            rw [hr] at h₂
            simpa using preserves_trans h₁
              (preserves_trans (preserves_updAtom m₁ key _) h₂)

theorem preserves_resetOp (fuel : Nat) (m : SM) (key : String) (v : Value) :
    Preserves m (m.resetOp fuel key v).1 := by
  unfold SM.resetOp
  by_cases h1 : m.hasAtom key
  · simp only [h1, if_true]
    exact preserves_setOp fuel m key v
  · by_cases h2 : m.hasSel key <;>
      simp only [h1, h2, Bool.false_eq_true, if_false, if_true] <;>
      exact preserves_refl m

theorem preserves_invalidateOp (fuel : Nat) (m : SM) (key : String) :
    Preserves m (m.invalidateOp fuel key).1 := by
  unfold SM.invalidateOp
  by_cases h : m.hasSel key
  · simp only [h, if_true]
    rcases hr : run fuel (m.updSel key fun s => { s with cachedDeps := [] })
        [Task.onDepTop key] with ⟨m', evs, err⟩
    have h₂ := preserves_run fuel (m.updSel key fun s => { s with cachedDeps := [] })
      [Task.onDepTop key]
    rw [hr] at h₂
    simpa [hr] using preserves_trans (preserves_updSel m key _) h₂
  · simp only [h, Bool.false_eq_true, if_false]
    exact preserves_refl m

theorem registerDepListeners_hasAtom (ks : List String) :
    ∀ (m : SM) (selKey k' : String),
      (registerDepListeners m selKey ks).hasAtom k' = m.hasAtom k' := by
  induction ks with
  | nil => intro m selKey k'; rfl
  | cons d rest ih =>
    intro m selKey k'
    rw [registerDepListeners, ih]
    rw [SM.hasAtom, SM.hasAtom, SM.updAtom]
    simp only
    rw [alookup_aupdate]
    by_cases hdk : k' = d
    · subst hdk
      rw [if_pos rfl]
      simp [Option.isSome_map]
    · rw [if_neg hdk]

theorem addSelectorOp_disjoint (m : SM) (key : String) (fn : SelectFn)
    (hD : m.Disjoint)
    (hguard : fn.isAsync = false → key ∉ (evalTrack fn.body m [] []).2.1) :
    (m.addSelectorOp key fn).1.Disjoint := by
  by_cases h1 : m.hasAtom key
  · simpa [SM.addSelectorOp, h1] using hD
  · by_cases h2 : m.hasSel key
    · simpa [SM.addSelectorOp, h1, h2] using hD
    · cases hasync : fn.isAsync with
      | true =>
        rw [SM.addSelectorOp, if_neg (by simp [h1]), if_neg (by simp [h2]),
          if_pos (by simp [hasync])]
        intro p hp
        have hsel0 : m.hasSel p.1 = false := hD p hp
        have hne : ¬ p.1 = key := by
          intro hc
          have := mem_alookup_isSome m.atoms p hp
          rw [hc] at this
          rw [SM.hasAtom] at h1
          exact h1 this
        rw [SM.hasSel]
        simp only
        rw [alookup_append, alookup_eq_none_of_isSome_false hsel0]
        have hne' : ¬ key = p.1 := fun hc => hne hc.symm
        simp [alookup, hne']
      | false =>
        rw [SM.addSelectorOp, if_neg (by simp [h1]), if_neg (by simp [h2]),
          if_neg (by simp [hasync])]
        rcases hT : evalTrack fn.body m [] [] with ⟨m₁, deps, cache, res⟩
        have hTP := preserves_evalTrack fn.body m [] []
        rw [hT] at hTP
        have hD₁ : m₁.Disjoint := preserves_disjoint hTP hD
        cases res with
        | error e => exact hD₁
        | ok v =>
          rw [disjoint_iff]
          intro k' hk'
          have hkA : m₁.hasAtom k' = true := by
            rw [← registerDepListeners_hasAtom deps m₁ key k']
            exact hk'
          have hkSel : m.hasSel k' = false := by
            rcases hTP.2 k' hkA with h | h
            · exact (disjoint_iff m).mp hD k' h
            · exact h
          have hne : ¬ k' = key := by
            intro hc
            subst hc
            have hnew := evalTrack_newAtoms fn.body m [] [] k' (by rw [hT]; exact hkA)
            rw [hT] at hnew
            simp only at hnew
            rcases hnew with h | h
            · rw [h] at h1; exact h1 rfl
            · exact hguard hasync (by rw [hT]; exact h)
          rw [SM.hasSel]
          simp only
          rw [registerDepListeners_selectors deps m₁ key]
          have hm₁sel : m₁.selectors = m.selectors := by
            have h := evalTrack_selectors fn.body m [] []
            rw [hT] at h
            exact h
          rw [hm₁sel, alookup_append, alookup_eq_none_of_isSome_false hkSel]
          have hne' : ¬ key = k' := fun hc => hne hc.symm
          simp [alookup, hne']

theorem deleteOp_disjoint (m : SM) (key : String) (hD : m.Disjoint) :
    (m.deleteOp key).Disjoint := by
  intro p hp
  have hp' : p ∈ m.atoms := aerase_subset m.atoms key p hp
  have h := hD p hp'
  rw [SM.hasSel] at h ⊢
  cases hb : (alookup (m.deleteOp key).selectors p.1).isSome with
  | false => rfl
  | true =>
    have := aerase_lookup_isSome m.selectors key p.1 hb
    rw [this] at h
    cases h

theorem applyOp_disjoint (fuel : Nat) (m : SM) (op : Op) (hD : m.Disjoint)
    (hg : opSafe m op) : (applyOp fuel m op).Disjoint := by
  cases op with
  | atomC key default =>
    exact preserves_disjoint (preserves_atomOp m key default) hD
  | addSel key fn => exact addSelectorOp_disjoint m key fn hD hg
  | get key => exact preserves_disjoint (preserves_getOp m key) hD
  | set key v => exact preserves_disjoint (preserves_setOp fuel m key v) hD
  | listen key l immediate =>
    exact preserves_disjoint (preserves_listenOp fuel m key l immediate) hD
  | reset key v => exact preserves_disjoint (preserves_resetOp fuel m key v) hD
  | delete key => exact deleteOp_disjoint m key hD
  | clear => intro p hp; simp [applyOp, SM.clearOp, emptySM] at hp
  | invalidate key =>
    exact preserves_disjoint (preserves_invalidateOp fuel m key) hD

/-! ## Claim C7 -/

/-- C7 counterexample: registering a selector whose compute function reads
its own key succeeds and leaves `"S"` registered in *both* maps — during the
tracked initial evaluation the resolver creates an atom `"S"` (the key is
not yet in `_selectors`), and `add_selector` then stores the selector under
the same key, violating the claimed disjointness invariant in a state
reachable by a single public call. -/
theorem C7_disjointness_cx :
    (emptySM.addSelectorOp "S" ⟨false, SelectorExpr.get "S"⟩).2 =
      Option.none ∧
    (emptySM.addSelectorOp "S" ⟨false, SelectorExpr.get "S"⟩).1.hasAtom "S" =
      true ∧
    (emptySM.addSelectorOp "S" ⟨false, SelectorExpr.get "S"⟩).1.hasSel "S" =
      true ∧
    ¬ (emptySM.addSelectorOp "S" ⟨false, SelectorExpr.get "S"⟩).1.Disjoint := by
  refine ⟨by decide, by decide, by decide, ?_⟩
  intro h
  exact absurd (by decide : decide
    (emptySM.addSelectorOp "S" ⟨false, SelectorExpr.get "S"⟩).1.Disjoint = false)
    (by simp [decide_eq_true h])

/-- C7 amended: `atom(key, default)` raises `ValueError` when the key is
registered as a Selector and `add_selector(key, fn)` raises `ValueError`
when it is registered as an Atom, both before any map is modified; and
every public operation preserves disjointness of the two registries —
*provided* a registered selector's compute function does not read its own
key during the initial tracked evaluation (otherwise registration puts the
key in both maps, see the counterexample). -/
theorem C7_registry_disjointness :
    (∀ (m : SM) (key : String) (d : Value), m.hasSel key = true →
      m.atomOp key d = (m, Option.some (Err.valueError
        ("Key '" ++ key ++ "' is already registered as a Selector.")))) ∧
    (∀ (m : SM) (key : String) (fn : SelectFn), m.hasAtom key = true →
      m.addSelectorOp key fn = (m, Option.some (Err.valueError
        ("Key '" ++ key ++ "' is already registered as an Atom.")))) ∧
    (∀ (fuel : Nat) (m : SM) (op : Op), m.Disjoint → opSafe m op →
      (applyOp fuel m op).Disjoint) := by
  refine ⟨?_, ?_, fun fuel m op => applyOp_disjoint fuel m op⟩
  · intro m key d h
    simp [SM.atomOp, h]
  · intro m key fn h
    simp [SM.addSelectorOp, h]

/-- Witness for the amended C7: concrete rejected registrations and a
concrete disjointness-preserving operation. -/
theorem C7_registry_disjointness_witness :
    (c3M0.hasSel "f" = true ∧ c3M0.hasAtom "a" = true ∧
      c3M0.Disjoint ∧ opSafe c3M0 (Op.addSel "g" ⟨false, SelectorExpr.get "a"⟩)) ∧
    c3M0.atomOp "f" Value.none =
      (c3M0, Option.some (Err.valueError
        ("Key '" ++ "f" ++ "' is already registered as a Selector."))) ∧
    c3M0.addSelectorOp "a" ⟨false, SelectorExpr.const Value.none⟩ =
      (c3M0, Option.some (Err.valueError
        ("Key '" ++ "a" ++ "' is already registered as an Atom."))) ∧
    (applyOp 10 c3M0 (Op.addSel "g" ⟨false, SelectorExpr.get "a"⟩)).Disjoint :=
  ⟨⟨by decide, by decide, by decide, fun _ => by decide⟩,
    C7_registry_disjointness.1 c3M0 "f" Value.none (by decide),
    C7_registry_disjointness.2.1 c3M0 "a" ⟨false, SelectorExpr.const Value.none⟩
      (by decide),
    C7_registry_disjointness.2.2 10 c3M0 (Op.addSel "g" ⟨false, SelectorExpr.get "a"⟩)
      (by decide) (fun _ => by decide)⟩

/-! ## Object-graph lemmas (claim C8) -/

namespace Heap

theorem lookupObj_mem (l : List (Nat × PyObj)) (a : Nat) (o : PyObj)
    (h : lookupObj.go l a = Option.some o) : (a, o) ∈ l := by
  induction l with
  | nil => simp [lookupObj.go] at h
  | cons p rest ih =>
    rcases p with ⟨pa, po⟩
    by_cases hk : pa = a
    · subst hk
      rw [lookupObj.go, if_pos rfl] at h
      cases h
      exact List.mem_cons_self _ _
    · rw [lookupObj.go, if_neg hk] at h
      exact List.mem_cons_of_mem _ (ih h)

theorem lookup_lt_of_wf {h : PyHeap} {a : Nat} {o : PyObj} (hwf : Wf h)
    (hl : lookupObj h a = Option.some o) :
    a < h.fresh ∧ ∀ c ∈ o.children, c < h.fresh :=
  hwf (a, o) (lookupObj_mem h.objs a o hl)

theorem lookupObj_mutate (h : PyHeap) (x : Nat) (o : PyObj) (a : Nat) :
    lookupObj (mutate h x o) a =
      if x = a then Option.some o else lookupObj h a := by
  rw [mutate, lookupObj, lookupObj.go]
  rfl

theorem mem_insertField (p q : String × Nat) (l : List (String × Nat)) :
    q ∈ insertField p l → q = p ∨ q ∈ l := by
  induction l with
  | nil =>
    intro hq
    rw [insertField, List.mem_cons] at hq
    rcases hq with hq | hq
    · exact Or.inl hq
    · simp at hq
  | cons r rest ih =>
    intro hq
    rw [insertField] at hq
    by_cases hle : p.1 ≤ r.1
    · rw [if_pos hle] at hq
      rw [List.mem_cons] at hq
      rcases hq with hq | hq
      · exact Or.inl hq
      · exact Or.inr hq
    · rw [if_neg hle] at hq
      rw [List.mem_cons] at hq
      rcases hq with hq | hq
      · exact Or.inr (by rw [hq]; exact List.mem_cons_self _ _)
      · rcases ih hq with hq | hq
        · exact Or.inl hq
        · exact Or.inr (List.mem_cons_of_mem _ hq)

theorem mem_sortFields (q : String × Nat) (l : List (String × Nat)) :
    q ∈ sortFields l → q ∈ l := by
  induction l with
  | nil => intro hq; simp [sortFields] at hq
  | cons p rest ih =>
    intro hq
    rw [sortFields] at hq
    rcases mem_insertField p q (sortFields rest) hq with hq | hq
    · rw [hq]; exact List.mem_cons_self _ _
    · exact List.mem_cons_of_mem _ (ih hq)

theorem dumps_congr (S : Nat → Prop) (h h' : PyHeap)
    (hagree : ∀ x, S x → lookupObj h' x = lookupObj h x)
    (hclosed : ∀ x o, S x → lookupObj h x = Option.some o →
      ∀ c ∈ o.children, S c) :
    ∀ fuel : Nat,
      (∀ a, S a → dumps fuel h' a = dumps fuel h a) ∧
      (∀ es : List Nat, (∀ c ∈ es, S c) →
        dumpsList fuel h' es = dumpsList fuel h es) ∧
      (∀ fs : List (String × Nat), (∀ c ∈ fs.map (fun f => f.2), S c) →
        dumpsFields fuel h' fs = dumpsFields fuel h fs) := by
  intro fuel
  induction fuel with
  | zero =>
    refine ⟨fun a _ => by simp [dumps], fun es _ => ?_, fun fs _ => ?_⟩
    · cases es with
      | nil => simp [dumpsList]
      | cons a rest => simp [dumpsList, dumps]
    · cases fs with
      | nil => simp [dumpsFields]
      | cons f rest => simp [dumpsFields, dumps]
  | succ fuel ih =>
    have haddr : ∀ a, S a → dumps (fuel + 1) h' a = dumps (fuel + 1) h a := by
      intro a hS
      cases hl : lookupObj h a with
      | none => simp [dumps, hagree a hS, hl]
      | some o =>
        cases o with
        | scalar v => simp [dumps, hagree a hS, hl]
        | tup es =>
          have hc : ∀ c ∈ es, S c := hclosed a (PyObj.tup es) hS hl
          simp [dumps, hagree a hS, hl, ih.2.1 es hc]
        | lst es =>
          have hc : ∀ c ∈ es, S c := hclosed a (PyObj.lst es) hS hl
          simp [dumps, hagree a hS, hl, ih.2.1 es hc]
        | dct fs =>
          have hc : ∀ c ∈ (sortFields fs).map (fun f => f.2), S c := by
            intro c hcm
            rw [List.mem_map] at hcm
            obtain ⟨q, hq, hqc⟩ := hcm
            have hq' : q ∈ fs := mem_sortFields q fs hq
            refine hclosed a (PyObj.dct fs) hS hl c ?_
            rw [PyObj.children, List.mem_map]
            exact ⟨q, hq', hqc⟩
          simp [dumps, hagree a hS, hl, ih.2.2 (sortFields fs) hc]
    refine ⟨haddr, ?_, ?_⟩
    · intro es hS
      induction es with
      | nil => simp [dumpsList]
      | cons a rest ihl =>
        have h1 := haddr a (hS a (List.mem_cons_self a rest))
        have h2 := ihl fun c hc => hS c (List.mem_cons_of_mem a hc)
        simp [dumpsList, h1, h2]
    · intro fs hS
      induction fs with
      | nil => simp [dumpsFields]
      | cons f rest ihl =>
        have h1 := haddr f.2 (hS f.2 (by
          rw [List.map_cons]
          exact List.mem_cons_self f.2 _))
        have h2 := ihl fun c hc => hS c (by
          rw [List.map_cons]
          exact List.mem_cons_of_mem f.2 hc)
        simp [dumpsFields, h1, h2]

theorem lookupObj_alloc (h : PyHeap) (o : PyObj) (a : Nat) :
    lookupObj (alloc h o).1 a =
      if h.fresh = a then Option.some o else lookupObj h a := by
  by_cases hc : h.fresh = a
  · simp [alloc, lookupObj, lookupObj.go, hc]
  · simp [alloc, lookupObj, lookupObj.go, hc]

theorem wf_alloc (h : PyHeap) (o : PyObj) (hwf : Wf h)
    (hch : ∀ c ∈ o.children, c < h.fresh) : Wf (alloc h o).1 := by
  intro p hp
  have hp' : p ∈ (h.fresh, o) :: h.objs := hp
  rw [List.mem_cons] at hp'
  rcases hp' with hp' | hp'
  · subst hp'
    refine ⟨Nat.lt_succ_self _, fun c hc => ?_⟩
    exact Nat.lt_succ_of_lt (hch c hc)
  · obtain ⟨h1, h2⟩ := hwf p hp'
    exact ⟨Nat.lt_succ_of_lt h1, fun c hc => Nat.lt_succ_of_lt (h2 c hc)⟩

theorem deepcopy_spec : ∀ fuel : Nat,
    (∀ (h : PyHeap) (a : Nat) (h₁ : PyHeap) (a' : Nat), Wf h →
      deepcopy fuel h a = Option.some (h₁, a') →
      Wf h₁ ∧ h.fresh ≤ h₁.fresh ∧ h.fresh ≤ a' ∧ a' < h₁.fresh ∧
      (∀ x, x < h.fresh → lookupObj h₁ x = lookupObj h x) ∧
      (∀ x o, h.fresh ≤ x → lookupObj h₁ x = Option.some o →
        ∀ c ∈ o.children, h.fresh ≤ c)) ∧
    (∀ (h : PyHeap) (es : List Nat) (h₁ : PyHeap) (es' : List Nat), Wf h →
      deepcopyList fuel h es = Option.some (h₁, es') →
      Wf h₁ ∧ h.fresh ≤ h₁.fresh ∧
      (∀ e ∈ es', h.fresh ≤ e ∧ e < h₁.fresh) ∧
      (∀ x, x < h.fresh → lookupObj h₁ x = lookupObj h x) ∧
      (∀ x o, h.fresh ≤ x → lookupObj h₁ x = Option.some o →
        ∀ c ∈ o.children, h.fresh ≤ c)) ∧
    (∀ (h : PyHeap) (fs : List (String × Nat)) (h₁ : PyHeap)
      (fs' : List (String × Nat)), Wf h →
      deepcopyFields fuel h fs = Option.some (h₁, fs') →
      Wf h₁ ∧ h.fresh ≤ h₁.fresh ∧
      (∀ e ∈ fs'.map (fun f => f.2), h.fresh ≤ e ∧ e < h₁.fresh) ∧
      (∀ x, x < h.fresh → lookupObj h₁ x = lookupObj h x) ∧
      (∀ x o, h.fresh ≤ x → lookupObj h₁ x = Option.some o →
        ∀ c ∈ o.children, h.fresh ≤ c)) := by
  intro fuel
  induction fuel with
  | zero =>
    refine ⟨?_, ?_, ?_⟩
    · intro h a h₁ a' hwf heq
      rw [deepcopy] at heq
      cases heq
    · intro h es h₁ es' hwf heq
      cases es with
      | nil =>
        rw [deepcopyList] at heq
        cases heq
        refine ⟨hwf, Nat.le_refl _, by simp, fun x _ => rfl, ?_⟩
        intro x o hx hl
        obtain ⟨hlt, _⟩ := lookup_lt_of_wf hwf hl
        exact absurd hlt (Nat.not_lt.mpr hx)
      | cons a rest =>
        rw [deepcopyList, deepcopy] at heq
        cases heq
    · intro h fs h₁ fs' hwf heq
      cases fs with
      | nil =>
        rw [deepcopyFields] at heq
        cases heq
        refine ⟨hwf, Nat.le_refl _, by simp, fun x _ => rfl, ?_⟩
        intro x o hx hl
        obtain ⟨hlt, _⟩ := lookup_lt_of_wf hwf hl
        exact absurd hlt (Nat.not_lt.mpr hx)
      | cons f rest =>
        rw [deepcopyFields, deepcopy] at heq
        cases heq
  | succ fuel ih =>
    have hallocCase : ∀ (h₂ : PyHeap) (h : PyHeap) (o' : PyObj) (h₁ : PyHeap)
        (a' : Nat), Wf h₂ → h.fresh ≤ h₂.fresh →
        (∀ c ∈ o'.children, h.fresh ≤ c ∧ c < h₂.fresh) →
        (∀ x, x < h.fresh → lookupObj h₂ x = lookupObj h x) →
        (∀ x o, h.fresh ≤ x → lookupObj h₂ x = Option.some o →
          ∀ c ∈ o.children, h.fresh ≤ c) →
        alloc h₂ o' = (h₁, a') →
        Wf h₁ ∧ h.fresh ≤ h₁.fresh ∧ h.fresh ≤ a' ∧ a' < h₁.fresh ∧
        (∀ x, x < h.fresh → lookupObj h₁ x = lookupObj h x) ∧
        (∀ x o, h.fresh ≤ x → lookupObj h₁ x = Option.some o →
          ∀ c ∈ o.children, h.fresh ≤ c) := by
      intro h₂ h o' h₁ a' hwf₂ hmono hbounds hlook hhigh halloc
      have hh₁ : h₁ = (alloc h₂ o').1 := by rw [halloc]
      have ha' : a' = h₂.fresh := (congrArg Prod.snd halloc).symm
      subst hh₁ ha'
      refine ⟨wf_alloc h₂ o' hwf₂ (fun c hc => (hbounds c hc).2), ?_, ?_, ?_, ?_, ?_⟩
      · exact Nat.le_succ_of_le hmono
      · exact hmono
      · exact Nat.lt_succ_self _
      · intro x hx
        have hne : ¬ h₂.fresh = x := by omega
        rw [lookupObj_alloc, if_neg hne]
        exact hlook x hx
      · intro x o hx hl
        rw [lookupObj_alloc] at hl
        by_cases hc : h₂.fresh = x
        · rw [if_pos hc] at hl
          cases hl
          exact fun c hc' => (hbounds c hc').1
        · rw [if_neg hc] at hl
          exact hhigh x o hx hl
    have haddr : ∀ (h : PyHeap) (a : Nat) (h₁ : PyHeap) (a' : Nat), Wf h →
        deepcopy (fuel + 1) h a = Option.some (h₁, a') →
        Wf h₁ ∧ h.fresh ≤ h₁.fresh ∧ h.fresh ≤ a' ∧ a' < h₁.fresh ∧
        (∀ x, x < h.fresh → lookupObj h₁ x = lookupObj h x) ∧
        (∀ x o, h.fresh ≤ x → lookupObj h₁ x = Option.some o →
          ∀ c ∈ o.children, h.fresh ≤ c) := by
      intro h a h₁ a' hwf heq
      rw [deepcopy] at heq
      cases hl : lookupObj h a with
      | none => rw [hl] at heq; cases heq
      | some o =>
        rw [hl] at heq
        cases o with
        | scalar v =>
          simp only at heq
          cases heq
          refine hallocCase h h (PyObj.scalar v) _ _ hwf (Nat.le_refl _)
            (by simp [PyObj.children]) (fun x _ => rfl) ?_ rfl
          intro x o hx hlx
          obtain ⟨hlt, _⟩ := lookup_lt_of_wf hwf hlx
          exact absurd hlt (Nat.not_lt.mpr hx)
        | tup es =>
          simp only at heq
          cases hdl : deepcopyList fuel h es with
          | none => rw [hdl] at heq; cases heq
          | some p =>
            rw [hdl] at heq
            rcases p with ⟨h₂, es'⟩
            simp only [Option.map] at heq
            cases heq
            obtain ⟨hwf₂, hmono, hbounds, hlook, hhigh⟩ :=
              ih.2.1 h es h₂ es' hwf hdl
            exact hallocCase h₂ h (PyObj.tup es') _ _ hwf₂ hmono hbounds
              hlook hhigh rfl
        | lst es =>
          simp only at heq
          cases hdl : deepcopyList fuel h es with
          | none => rw [hdl] at heq; cases heq
          | some p =>
            rw [hdl] at heq
            rcases p with ⟨h₂, es'⟩
            simp only [Option.map] at heq
            cases heq
            obtain ⟨hwf₂, hmono, hbounds, hlook, hhigh⟩ :=
              ih.2.1 h es h₂ es' hwf hdl
            exact hallocCase h₂ h (PyObj.lst es') _ _ hwf₂ hmono hbounds
              hlook hhigh rfl
        | dct fs =>
          simp only at heq
          cases hdl : deepcopyFields fuel h fs with
          | none => rw [hdl] at heq; cases heq
          | some p =>
            rw [hdl] at heq
            rcases p with ⟨h₂, fs'⟩
            simp only [Option.map] at heq
            cases heq
            obtain ⟨hwf₂, hmono, hbounds, hlook, hhigh⟩ :=
              ih.2.2 h fs h₂ fs' hwf hdl
            exact hallocCase h₂ h (PyObj.dct fs') _ _ hwf₂ hmono hbounds
              hlook hhigh rfl
    refine ⟨haddr, ?_, ?_⟩
    · intro h es
      induction es generalizing h with
      | nil =>
        intro h₁ es' hwf heq
        rw [deepcopyList] at heq
        cases heq
        refine ⟨hwf, Nat.le_refl _, by simp, fun x _ => rfl, ?_⟩
        intro x o hx hl
        obtain ⟨hlt, _⟩ := lookup_lt_of_wf hwf hl
        exact absurd hlt (Nat.not_lt.mpr hx)
      | cons a rest ihl =>
        intro h₁ es' hwf heq
        rw [deepcopyList] at heq
        cases hda : deepcopy (fuel + 1) h a with
        | none => rw [hda] at heq; cases heq
        | some p =>
          rw [hda] at heq
          rcases p with ⟨hA, a'⟩
          simp only at heq
          cases hdr : deepcopyList (fuel + 1) hA rest with
          | none => rw [hdr] at heq; cases heq
          | some q =>
            rw [hdr] at heq
            rcases q with ⟨h₂, rest'⟩
            simp only [Option.map] at heq
            cases heq
            obtain ⟨hwfA, hmonoA, haA1, haA2, hlookA, hhighA⟩ :=
              haddr h a hA a' hwf hda
            obtain ⟨hwfR, hmonoR, hboundsR, hlookR, hhighR⟩ :=
              ihl hA _ _ hwfA hdr
            refine ⟨hwfR, by omega, ?_, ?_, ?_⟩
            · intro e he
              rw [List.mem_cons] at he
              rcases he with he | he
              · subst he
                constructor
                · exact haA1
                · omega
              · obtain ⟨hb1, hb2⟩ := hboundsR e he
                exact ⟨by omega, hb2⟩
            · intro x hx
              rw [hlookR x (by omega)]
              exact hlookA x hx
            · intro x o hx hlx
              by_cases hxa : hA.fresh ≤ x
              · intro c hc
                have := hhighR x o hxa hlx c hc
                omega
              · rw [hlookR x (by omega)] at hlx
                exact hhighA x o hx hlx
    · intro h fs
      induction fs generalizing h with
      | nil =>
        intro h₁ fs' hwf heq
        rw [deepcopyFields] at heq
        cases heq
        refine ⟨hwf, Nat.le_refl _, by simp, fun x _ => rfl, ?_⟩
        intro x o hx hl
        obtain ⟨hlt, _⟩ := lookup_lt_of_wf hwf hl
        exact absurd hlt (Nat.not_lt.mpr hx)
      | cons f rest ihl =>
        intro h₁ fs' hwf heq
        rw [deepcopyFields] at heq
        cases hda : deepcopy (fuel + 1) h f.2 with
        | none => rw [hda] at heq; cases heq
        | some p =>
          rw [hda] at heq
          rcases p with ⟨hA, a'⟩
          simp only at heq
          cases hdr : deepcopyFields (fuel + 1) hA rest with
          | none => rw [hdr] at heq; cases heq
          | some q =>
            rw [hdr] at heq
            rcases q with ⟨h₂, rest'⟩
            simp only [Option.map] at heq
            cases heq
            obtain ⟨hwfA, hmonoA, haA1, haA2, hlookA, hhighA⟩ :=
              haddr h f.2 hA a' hwf hda
            obtain ⟨hwfR, hmonoR, hboundsR, hlookR, hhighR⟩ :=
              ihl hA _ _ hwfA hdr
            refine ⟨hwfR, by omega, ?_, ?_, ?_⟩
            · intro e he
              rw [List.map_cons, List.mem_cons] at he
              rcases he with he | he
              · subst he
                constructor
                · exact haA1
                · omega
              · obtain ⟨hb1, hb2⟩ := hboundsR e he
                exact ⟨by omega, hb2⟩
            · intro x hx
              rw [hlookR x (by omega)]
              exact hlookA x hx
            · intro x o hx hlx
              by_cases hxa : hA.fresh ≤ x
              · intro c hc
                have := hhighR x o hxa hlx c hc
                omega
              · rw [hlookR x (by omega)] at hlx
                exact hhighA x o hx hlx

/-- Mutation immunity of a deep copy: the copy of a well-formed heap's object
lives at a fresh address, and in-place mutation of any pre-existing address
(every object external code could already hold a reference to) leaves the
copy's serialisation unchanged. -/
theorem deepcopy_dumps_immune (fuel : Nat) (h : PyHeap) (r : Nat)
    (h₁ : PyHeap) (s : Nat) (hwf : Wf h)
    (hdc : deepcopy fuel h r = Option.some (h₁, s)) :
    h.fresh ≤ s ∧ ∀ fuel' x₀ o₀, x₀ < h.fresh →
      dumps fuel' (mutate h₁ x₀ o₀) s = dumps fuel' h₁ s := by
  obtain ⟨hwf₁, hmono, hs1, hs2, hlook, hhigh⟩ :=
    (deepcopy_spec fuel).1 h r h₁ s hwf hdc
  refine ⟨hs1, ?_⟩
  intro fuel' x₀ o₀ hx₀
  have hcg := dumps_congr (fun x => h.fresh ≤ x) h₁ (mutate h₁ x₀ o₀)
    (fun x hx => by
      have hne : ¬ x₀ = x := by omega
      rw [lookupObj_mutate, if_neg hne])
    hhigh fuel'
  exact hcg.1 s hs1

/-- Claim C8, counterexample.  A tuple is a sequence container, but
`Selector._set_value` tests only `isinstance(new_value, (dict, list, set))`,
so the tuple `([],)` at address 1 is stored directly without a deep copy
(the returned heap is unchanged and the stored address is 1 itself), and
external in-place mutation of the inner list at address 0 changes the
serialisation of the selector's stored value from `[[]]` to `[[7]]`. -/
theorem C8_tuple_not_copied_cx :
    Wf h8 ∧
    hSetValue 10 h8 2 1 = Option.some (h8, 1, true) ∧
    dumps 10 h8 1 = Option.some "[[]]" ∧
    dumps 10 (mutate h8 0 (PyObj.lst [3])) 1 = Option.some "[[7]]" := by
  refine ⟨by decide, ?_, ?_, ?_⟩
  · simp [hSetValue, hDeepEqual, dumps, dumpsList, dumpsFields, lookupObj,
      lookupObj.go, h8, Value.dumps, isContainer]
    decide
  · simp [dumps, dumpsList, dumpsFields, lookupObj, lookupObj.go, h8,
      Value.dumps, String.intercalate, String.intercalate.go,
      List.intercalate]
  · simp [dumps, dumpsList, dumpsFields, lookupObj, lookupObj.go, h8, mutate,
      Value.dumps, String.intercalate, String.intercalate.go,
      List.intercalate]
    decide

/-- Claim C8, amended.  For an immediate recomputation result at address `r`:
if `deep_equal` reports it equal to the current value, nothing changes and no
listener fires; otherwise listeners are notified and either the result is not
a `dict`/`list`/`set` (tuples and scalars alike) and its address is stored
directly with the heap unchanged, or it is one and the stored value is a deep
copy at a fresh address whose serialisation is immune to in-place mutation of
every pre-existing address. -/
theorem C8_set_value_copy_semantics (fuel : Nat) (h : PyHeap) (cur r : Nat)
    (h' : PyHeap) (s : Nat) (notified : Bool) (hwf : Wf h)
    (heq : hSetValue fuel h cur r = Option.some (h', s, notified)) :
    (hDeepEqual fuel h r cur = true → h' = h ∧ s = cur ∧ notified = false) ∧
    (hDeepEqual fuel h r cur = false → notified = true ∧
      ((∃ o, lookupObj h r = Option.some o ∧ isContainer o = false ∧
        h' = h ∧ s = r) ∨
       (∃ o, lookupObj h r = Option.some o ∧ isContainer o = true ∧
        deepcopy fuel h r = Option.some (h', s) ∧ h.fresh ≤ s ∧
        ∀ fuel' x₀ o₀, x₀ < h.fresh →
          dumps fuel' (mutate h' x₀ o₀) s = dumps fuel' h' s))) := by
  rw [hSetValue] at heq
  by_cases hg : hDeepEqual fuel h r cur = true
  · rw [if_pos hg] at heq
    cases heq
    refine ⟨fun _ => ⟨rfl, rfl, rfl⟩, fun hfalse => ?_⟩
    rw [hg] at hfalse
    exact Bool.noConfusion hfalse
  · rw [if_neg hg] at heq
    refine ⟨fun htrue => absurd htrue hg, fun _ => ?_⟩
    cases hl : lookupObj h r with
    | none => rw [hl] at heq; cases heq
    | some o =>
      rw [hl] at heq
      simp only at heq
      by_cases hc : isContainer o = true
      · rw [if_pos hc] at heq
        cases hdc : deepcopy fuel h r with
        | none => rw [hdc] at heq; cases heq
        | some p =>
          rw [hdc] at heq
          rcases p with ⟨h₁, s₁⟩
          simp only [Option.map] at heq
          cases heq
          obtain ⟨hs1, himm⟩ :=
            deepcopy_dumps_immune fuel h r h' s hwf hdc
          exact ⟨rfl, Or.inr ⟨o, rfl, hc, rfl, hs1, himm⟩⟩
      · rw [if_neg hc] at heq
        cases heq
        have hc' : isContainer o = false := by
          cases hcb : isContainer o
          · rfl
          · exact absurd hcb hc
        exact ⟨rfl, Or.inl ⟨o, rfl, hc', rfl, rfl⟩⟩

/-- Test of claim C8's theorem on the concrete list scenario: the result at
address 0 of `h8b` is a list unequal to the current value, the copy lands at
the fresh address 5 of `h8c`, and mutating the original list at address 0
leaves the copy's serialisation unchanged. -/
theorem C8_set_value_copy_semantics_witness :
    hDeepEqual 10 h8b 0 2 = false ∧
    dumps 10 (mutate h8c 0 (PyObj.lst [])) 5 = dumps 10 h8c 5 := by
  have hmain := C8_set_value_copy_semantics 10 h8b 2 0 h8c 5 true
    (by decide)
    (by
      simp [hSetValue, hDeepEqual, dumps, dumpsList, dumpsFields, lookupObj,
        lookupObj.go, h8b, h8c, Value.dumps, isContainer, deepcopy,
        deepcopyList, deepcopyFields, alloc]
      decide)
  have hg : hDeepEqual 10 h8b 0 2 = false := by
    simp [hDeepEqual, dumps, dumpsList, dumpsFields, lookupObj, lookupObj.go,
      h8b, Value.dumps]
    decide
  obtain ⟨-, hcase⟩ := hmain
  obtain ⟨-, hor⟩ := hcase hg
  rcases hor with ⟨o, hl, hc, _, _⟩ | ⟨o, hl, hc, hdc, hs1, himm⟩
  · rw [show lookupObj h8b 0 = Option.some (PyObj.lst [3]) from rfl] at hl
    cases hl
    exact absurd hc (by decide)
  · exact ⟨hg, himm 10 0 (PyObj.lst []) (by decide)⟩

end Heap

end FletAsp
